import Mathlib

/- Shallow embedding of `src/inotify.hpp`: the `Inotify` class wrapping an
   inotify instance.  The OS primitives (`inotify_add_watch`, `poll`, `usleep`,
   `read`) are modelled as oracles; the filesystem seen by
   `fs::directory_iterator` is a finite tree of named entries. -/

/- inotify mask bits, from `sys/inotify.h`. -/

def IN_MOVED_FROM : Nat := 0x40
def IN_MOVED_TO : Nat := 0x80
def IN_CREATE : Nat := 0x100
def IN_MOVE_SELF : Nat := 0x800

def IN_DELETE_SELF : Nat := 0x400
def IN_IGNORED : Nat := 0x8000
def IN_ONLYDIR : Nat := 0x1000000
def IN_ISDIR : Nat := 0x40000000
def IN_ALL_EVENTS : Nat := 0xfff

/- `sizeof(inotify_event)` is 16 bytes; the buffer
   `inotify_event buffer[(4*1024+sizeof(inotify_event)-1)/sizeof(inotify_event)]`
   holds 256 * 16 = 4096 bytes. -/

def eventHeaderBytes : Nat := 16

def bufferCap : Nat := 4096

/- File kinds distinguished by `fs::is_directory` / `fs::is_other`:
   `other` stands for device files, fifos and sockets. -/

inductive EntKind where
  | dir
  | regular
  | symlink
  | other
deriving Repr, DecidableEq

/- A snapshot of a directory subtree: each child has a name, a kind, and
   (when it is a directory) its own subtree.  `FSChildren` is the listing
   order of `fs::directory_iterator`. -/

mutual
inductive FSTree where
  | node : FSChildren → FSTree

inductive FSChildren where
  | nil : FSChildren
  | cons : String → EntKind → FSTree → FSChildren → FSChildren
end

/-- Children of a directory tree, as a plain list. -/
def FSChildren.toList : FSChildren → List (String × EntKind × FSTree)
  | .nil => []
  | .cons name kind sub rest => (name, kind, sub) :: rest.toList

/-- The table entry `struct Watch` holding `std::string path; bool in_move;`. -/
structure Watch where
  path : String
  in_move : Bool
deriving Repr, DecidableEq

/-- One `inotify_event` record: header fields plus the (logical) name.
    `len` is the stored name-field length including the terminating null
    and word-boundary padding. -/
structure InEvent where
  wd : Int
  mask : Nat
  cookie : Nat
  len : Nat
  name : String
deriving Repr, DecidableEq

/-- Trace of OS suspension calls made by `read` (`poll` and `usleep`). -/
inductive IOAct where
  | poll : Int → IOAct
  | sleep : Nat → IOAct
deriving Repr, DecidableEq

/-- Failure of a call chain: `errno n` models a thrown
    `std::system_error(n, ...)`; `fuel` is a modelling artifact for
    running out of recursion fuel in the event-drain loop. -/
inductive Err where
  | errno : Nat → Err
  | fuel : Err
deriving Repr, DecidableEq

/-- Mutable state of an `Inotify` instance: the watch dictionary, the event
    buffer (unconsumed records, with the byte counters `bytes_in_buffer` and
    `bytes_handled` kept as in the source), plus observation traces:
    `calls` records every `inotify_add_watch(fd, path, mask)` invocation,
    `warns` counts log invocations, `rms` records `inotify_rm_watch`
    invocations, and `ios` records `poll`/`usleep` suspensions. -/
structure WState where
  watches : List (Int × Watch)
  buffer : List InEvent
  bytes_in_buffer : Nat
  bytes_handled : Nat
  calls : List (String × Nat)
  warns : Nat
  rms : List Int
  ios : List IOAct
deriving Repr, DecidableEq

/-- The empty initial state of a freshly constructed instance. -/
def WState.init : WState :=
  { watches := [], buffer := [], bytes_in_buffer := 0, bytes_handled := 0,
    calls := [], warns := 0, rms := [], ios := [] }

/-- The test `path.back() == '/'` (a non-empty path ending in a slash denotes a
    shallow watch). -/
def endsSlash (s : String) : Bool := s.data.getLast? == some '/'

/-- The path-join helper `operator/` built on `fs::path` concatenation. -/
def pathJoin (p n : String) : String :=
  if p = "" then n else if endsSlash p then p ++ n else p ++ "/" ++ n

/-- Length of the longest common prefix of two character lists, as computed
    by `std::mismatch(path0.begin(), path0.end(), path.begin())`. -/
def common : List Char → List Char → Nat
  | a :: as, b :: bs => if a = b then common as bs + 1 else 0
  | _, _ => 0

/-- The duplicate test of `add_watch`:
    `diff.first == path0.end() && (diff.second == path.end() ||
     !recursive && diff.second+1 == path.end())`. -/
def dupCheck (path0 path : String) (recursive : Bool) : Bool :=
  let c := common path0.data path.data
  c == path0.data.length &&
    (c == path.data.length || (!recursive && c + 1 == path.data.length))

/-- The test `child.compare(0, parent.size(), parent) == 0`: `parent` is a string
    prefix of `child`. -/
def isUnder (child parent : String) : Bool := parent.data.isPrefixOf child.data

/-- The registration mask passed to `inotify_add_watch`:
    `mask | IN_ONLYDIR | IN_MOVE_SELF | (recursive ? IN_CREATE | IN_MOVED_TO : 0)`. -/
def watchMask (mask : Nat) (recursive : Bool) : Nat :=
  mask ||| IN_ONLYDIR ||| IN_MOVE_SELF |||
    (if recursive then IN_CREATE ||| IN_MOVED_TO else 0)

/-- Assign the `in_move` field of the entry keyed `wd`
    (`watches.at(wd).in_move = b`). -/
def setInMove (wd : Int) (b : Bool) (ws : List (Int × Watch)) : List (Int × Watch) :=
  ws.map fun kv => if kv.1 == wd then (kv.1, { kv.2 with in_move := b }) else kv

/-- Assign the `path` field of the entry keyed `wd` (`it->second.path = path`). -/
def setPath (wd : Int) (p : String) (ws : List (Int × Watch)) : List (Int × Watch) :=
  ws.map fun kv => if kv.1 == wd then (kv.1, { kv.2 with path := p }) else kv

/-- The erasure `watches.erase(wd)`. -/
def eraseKey (wd : Int) (ws : List (Int × Watch)) : List (Int × Watch) :=
  ws.filter fun kv => kv.1 != wd

/-- The length `(name.size()+sizeof(int))/sizeof(int)*sizeof(int)`: the stored name
    length including the null terminator, padded to a word boundary. -/
def eventLen (name : String) : Nat := (name.utf8ByteSize + 4) / 4 * 4

/-- Bytes one record occupies in the buffer: `sizeof(inotify_event) + len`. -/
def eventBytes (e : InEvent) : Nat := eventHeaderBytes + e.len

/-- Total bytes of a record list. -/
def listBytes (es : List InEvent) : Nat := (es.map eventBytes).sum

/-- Watch identifiers of all table entries whose path has `p` as a string
    prefix (the recursive-teardown filter in the `IN_MOVE_SELF` handler). -/
def prefixRemovals (p : String) (ws : List (Int × Watch)) : List Int :=
  (ws.filter fun kv => isUnder kv.2.path p).map fun kv => kv.1

/-- The synthesized `IN_CREATE` record built for a child during backfill. -/
def synthEvent (wd : Int) (isdir : Bool) (name : String) : InEvent :=
  { wd := wd, mask := if isdir then IN_ISDIR ||| IN_CREATE else IN_CREATE,
    cookie := 0, len := eventLen name, name := name }

/-- The `else` branch of `add_watch` (`in_move == false`): walk the immediate
    children and append an `IN_CREATE` record to the buffer for each child
    that is not `fs::is_other`, when `mask & IN_CREATE || isdir && recursive`;
    throw `EINVAL` when the record would overrun the fixed buffer. -/
def synthesize (wd : Int) (mask : Nat) (recursive : Bool) :
    FSChildren → WState → Except Err WState
  | .nil, s => .ok s
  | .cons name kind _ rest, s =>
    if kind == EntKind.other then synthesize wd mask recursive rest s
    else
      let isdir := kind == EntKind.dir
      if (mask &&& IN_CREATE != 0) || (isdir && recursive) then
        let len := eventLen name
        let nb := s.bytes_in_buffer + eventHeaderBytes + len
        if nb > bufferCap then .error (.errno 22)
        else
          synthesize wd mask recursive rest
            { s with bytes_in_buffer := nb,
                     buffer := s.buffer ++ [synthEvent wd isdir name] }
      else synthesize wd mask recursive rest s

mutual
/-- The installer `Inotify::add_watch(path, in_move)`.  `reg` is the oracle modelling
    `inotify_add_watch(fd, path, mask)` (result `-1` = failure); `t` is the
    filesystem subtree currently at `path`; the returned `Int` is the watch
    descriptor handed back to the caller. -/
def add_watch (reg : String → Nat → Int) (mask : Nat) (path : String)
    (t : FSTree) (im : Bool) (s : WState) : Except Err (Int × WState) :=
  match t with
  | .node cs =>
    let recursive := !endsSlash path
    let m := watchMask mask recursive
    let wd := reg path m
    let s1 := { s with calls := s.calls ++ [(path, m)] }
    if wd == -1 then
      .ok (wd, { s1 with warns := s1.warns + 1 })
    else
      match List.lookup wd s1.watches with
      | some w =>
        if dupCheck w.path path recursive then .ok (wd, s1)
        else
          let s2 := { s1 with watches := setPath wd path s1.watches }
          if im then
            if recursive then
              match addSubdirs reg mask path cs s2 with
              | .error e => .error e
              | .ok s3 => .ok (wd, s3)
            else .ok (wd, s2)
          else
            match synthesize wd mask recursive cs s2 with
            | .error e => .error e
            | .ok s3 => .ok (wd, s3)
      | none =>
        let s2 := { s1 with watches := s1.watches ++ [(wd, { path := path, in_move := false })] }
        if im then
          if recursive then
            match addSubdirs reg mask path cs s2 with
            | .error e => .error e
            | .ok s3 => .ok (wd, s3)
          else .ok (wd, s2)
        else
          match synthesize wd mask recursive cs s2 with
          | .error e => .error e
          | .ok s3 => .ok (wd, s3)

/-- The `in_move && recursive` descent: for each subdirectory child, call
    `add_watch(subdir.string(), true)`; other children are skipped. -/
def addSubdirs (reg : String → Nat → Int) (mask : Nat) (parent : String) :
    FSChildren → WState → Except Err WState
  | .nil, s => .ok s
  | .cons name kind sub rest, s =>
    if kind == EntKind.dir then
      match add_watch reg mask (pathJoin parent name) sub true s with
      | .error e => .error e
      | .ok (_, s2) => addSubdirs reg mask parent rest s2
    else addSubdirs reg mask parent rest s
end

/-- Tail of the drain-loop body of `Inotify::read`, after the optional
    subdirectory installation: the `IN_MOVE_SELF` handling, the `IN_IGNORED`
    table erasure, and the interest-mask check deciding whether the record
    is returned to the caller. -/
def finishEvent (mask : Nat) (e : InEvent) (s3 : WState) : Option InEvent × WState :=
  let s4 :=
    if e.mask &&& IN_MOVE_SELF != 0 then
      match List.lookup e.wd s3.watches with
      | none => s3
      | some w2 =>
        if w2.in_move then { s3 with watches := setInMove e.wd false s3.watches }
        else if endsSlash w2.path then { s3 with rms := s3.rms ++ [e.wd] }
        else { s3 with rms := s3.rms ++ prefixRemovals w2.path s3.watches }
    else s3
  let s5 :=
    if e.mask &&& IN_IGNORED != 0 then
      { s4 with watches := eraseKey e.wd s4.watches }
    else s4
  (if e.mask &&& mask != 0 then some e else none, s5)

/-- One pass of the event-drain `do`-loop body of `Inotify::read`: consume
    the next buffered record, advance the byte counters (resetting both when
    the buffer is fully handled, throwing `EINVAL` on a truncated record or
    an unknown watch descriptor), install a watch for a created/moved-in
    subdirectory of a recursive watch (marking `in_move` on a moved-in one),
    then run `finishEvent`.  `fsAt` gives the subtree currently at a path. -/
def drainStep (reg : String → Nat → Int) (fsAt : String → FSTree) (mask : Nat)
    (s : WState) : Except Err (Option InEvent × WState) :=
  match s.buffer with
  | [] => .ok (none, s)
  | e :: rest =>
    let s1 := { s with buffer := rest, bytes_handled := s.bytes_handled + eventBytes e }
    if s1.bytes_handled > s1.bytes_in_buffer then .error (.errno 22)
    else
      let s2 :=
        if s1.bytes_handled == s1.bytes_in_buffer then
          { s1 with bytes_handled := 0, bytes_in_buffer := 0 }
        else s1
      match List.lookup e.wd s2.watches with
      | none => .error (.errno 22)
      | some w =>
        if (e.mask &&& (IN_CREATE ||| IN_MOVED_TO) != 0) && (e.mask &&& IN_ISDIR != 0)
            && !endsSlash w.path then
          let child := pathJoin w.path e.name
          let im := e.mask &&& IN_MOVED_TO != 0
          match add_watch reg mask child (fsAt child) im s2 with
          | .error er => .error er
          | .ok (wd2, s3) =>
            .ok (finishEvent mask e
              (if im && decide (wd2 ≥ 0)
               then { s3 with watches := setInMove wd2 true s3.watches }
               else s3))
        else .ok (finishEvent mask e s2)

/-- The full event-drain loop (`do ... while (bytes_handled > 0)`), with a
    fuel bound standing in for the loop's byte-count termination argument. -/
def drain (reg : String → Nat → Int) (fsAt : String → FSTree) (mask : Nat) :
    Nat → WState → Except Err (Option InEvent × WState)
  | 0, _ => .error .fuel
  | fuel + 1, s =>
    match drainStep reg fsAt mask s with
    | .error e => .error e
    | .ok (some e, s2) => .ok (some e, s2)
    | .ok (none, s2) =>
      if s2.bytes_handled > 0 then drain reg fsAt mask fuel s2 else .ok (none, s2)

/-- One `poll`/`usleep`/`read` refill opportunity offered by the OS:
    whether `poll` reported readiness, the batch of records a subsequent
    `::read` would return, and the wall-clock milliseconds that elapse over
    the whole iteration of `Inotify::read` using this round. -/
structure Round where
  ready : Bool
  events : List InEvent
  elapsed : Int
deriving Repr, DecidableEq

/-- Result of `Inotify::read`: a matching event, a `nullptr` return from the
    `poll()` timeout branch (carrying the budget that `poll` was given), a
    `nullptr` return from the exhausted-budget branch, or `pending` when the
    modelled OS rounds ran out while the loop would keep retrying. -/
inductive ReadOut where
  | ev : InEvent → WState → List Round → ReadOut
  | pollTimedOut : Int → WState → List Round → ReadOut
  | budgetOut : WState → List Round → ReadOut
  | pending : WState → ReadOut
deriving Repr, DecidableEq

/-- The reader `Inotify::read(timeout, read_delay)`, one iteration per OS `Round`:
    when the buffer is empty, `poll` with the remaining budget (returning
    `nullptr` on its timeout), `usleep(read_delay*1000)`, and refill from
    `::read` (zero bytes → `EIO`); then drain the buffer; if no record of
    interest was produced, retry with the elapsed time subtracted from the
    remaining budget (a negative budget retries unchanged), or return
    `nullptr` once the budget is spent. -/
def readLoop (reg : String → Nat → Int) (fsAt : String → FSTree) (mask : Nat)
    (rd : Nat) (df : Nat) : List Round → Int → WState → Except Err ReadOut
  | [], _, s => .ok (.pending s)
  | r :: rest, timeout, s =>
    if s.buffer.isEmpty then
      let s1 := { s with ios := s.ios ++ [IOAct.poll timeout] }
      if r.ready then
        let s2 := { s1 with ios := s1.ios ++ [IOAct.sleep (rd * 1000)] }
        if r.events.isEmpty then .error (.errno 5)
        else
          let s3 := { s2 with buffer := r.events, bytes_in_buffer := listBytes r.events }
          match drain reg fsAt mask df s3 with
          | .error e => .error e
          | .ok (some e, s4) => .ok (.ev e s4 rest)
          | .ok (none, s4) =>
            if timeout < 0 then readLoop reg fsAt mask rd df rest timeout s4
            else if timeout - r.elapsed > 0 then
              readLoop reg fsAt mask rd df rest (timeout - r.elapsed) s4
            else .ok (.budgetOut s4 rest)
      else .ok (.pollTimedOut timeout s1 rest)
    else
      match drain reg fsAt mask df s with
      | .error e => .error e
      | .ok (some e, s4) => .ok (.ev e s4 rest)
      | .ok (none, s4) =>
        if timeout < 0 then readLoop reg fsAt mask rd df rest timeout s4
        else if timeout - r.elapsed > 0 then
          readLoop reg fsAt mask rd df rest (timeout - r.elapsed) s4
        else .ok (.budgetOut s4 rest)

/-- Sum of the per-iteration elapsed times of a list of rounds. -/
def elapsedSum (rs : List Round) : Int := (rs.map Round.elapsed).sum


def expectedSynth (wd : Int) (mask : Nat) (recursive : Bool) : FSChildren → List InEvent
  | .nil => []
  | .cons name kind _ rest =>
    (if kind != EntKind.other &&
        ((mask &&& IN_CREATE != 0) || (kind == EntKind.dir && recursive)) then
      [synthEvent wd (kind == EntKind.dir) name]
    else []) ++ expectedSynth wd mask recursive rest

def synthBytes (mask : Nat) (recursive : Bool) (cs : FSChildren) : Nat :=
  listBytes (expectedSynth 0 mask recursive cs)

/-- No table entry's one-shot flag is newly raised between table `a` and
    table `b`. -/
def NoRaise (a b : List (Int × Watch)) : Prop :=
  ∀ (k : Int) (w' : Watch), List.lookup k b = some w' → w'.in_move = true →
    ∃ w0, List.lookup k a = some w0 ∧ w0.in_move = true

/-- Timeout-accounting bound a `read` outcome satisfies: a `nullptr` return
    from the `poll` branch was given exactly the remaining budget, and a
    `nullptr` return from the exhausted-budget branch happens only when the
    completed iterations consumed the whole non-negative budget. -/
def ReadOutBound (rounds : List Round) (t : Int) : ReadOut → Prop
  | .pollTimedOut b _ left => ∃ pre r1, rounds = pre ++ r1 :: left ∧ r1.ready = false ∧
      (t < 0 → b = t) ∧ (0 ≤ t → b = t - elapsedSum pre ∧ 0 ≤ b)
  | .budgetOut _ left => 0 ≤ t ∧ ∃ pre r1, rounds = pre ++ r1 :: left ∧
      0 ≤ t - elapsedSum pre ∧ t - elapsedSum pre - r1.elapsed ≤ 0
  | _ => True

/-- Children of the tree at the watched directory. -/
def treeChildren : FSTree → FSChildren
  | .node cs => cs

/-- Registration oracle answering a fixed identifier, for concrete runs. -/
def rgW : String → Nat → Int := fun _ _ => 7

/-- A directory snapshot with one regular file child. -/
def trC1 : FSTree := .node (.cons "f" .regular (.node .nil) .nil)

/-- A directory snapshot with a regular file child and a subdirectory. -/
def trW : FSTree := .node (.cons "f" .regular (.node .nil)
  (.cons "d" .dir (.node .nil) .nil))

/-- Registration oracle that always fails. -/
def rgF : String → Nat → Int := fun _ _ => -1

/-- Filesystem oracle answering an empty directory everywhere. -/
def fsW : String → FSTree := fun _ => .node .nil

def stC2 : WState := { WState.init with watches := [(7, { path := "/a", in_move := false })] }

def stC7 : WState :=
  { watches := [(7, { path := "/a", in_move := false })],
    buffer := [synthEvent 7 true "d"], bytes_in_buffer := 20, bytes_handled := 0,
    calls := [("/a", watchMask 0 true)], warns := 0, rms := [], ios := [] }

def stC1 : WState :=
  { watches := [(7, { path := "/a", in_move := false })],
    buffer := [synthEvent 7 false "f", synthEvent 7 true "d"],
    bytes_in_buffer := 40, bytes_handled := 0,
    calls := [("/a", watchMask 0xfff true)], warns := 0, rms := [], ios := [] }

def stC5 : WState :=
  { watches := [(7, { path := "/a/d", in_move := false })], buffer := [],
    bytes_in_buffer := 0, bytes_handled := 0,
    calls := [("/a", watchMask 0xfff true), ("/a/d", watchMask 0xfff true)],
    warns := 0, rms := [], ios := [] }

def bigName : String := String.mk (List.replicate 1100 'a')

def trC8 : FSTree := .node (.cons bigName .regular (.node .nil)
  (.cons bigName .regular (.node .nil)
    (.cons bigName .regular (.node .nil)
      (.cons bigName .regular (.node .nil) .nil))))

def evMS : InEvent := { wd := 3, mask := IN_MOVE_SELF, cookie := 0, len := 0, name := "" }

def stC3 : WState :=
  { watches := [(3, { path := "/a", in_move := false }),
      (4, { path := "/a/b", in_move := false }),
      (9, { path := "/c", in_move := false })],
    buffer := [evMS], bytes_in_buffer := 16, bytes_handled := 0,
    calls := [], warns := 0, rms := [], ios := [] }

def stC4a : WState :=
  { watches := [(3, { path := "/a", in_move := true })],
    buffer := [evMS], bytes_in_buffer := 16, bytes_handled := 0,
    calls := [], warns := 0, rms := [], ios := [] }

def evAcc : InEvent := { wd := 3, mask := 1, cookie := 0, len := 0, name := "" }

def stC4c : WState :=
  { watches := [(3, { path := "/x", in_move := true })],
    buffer := [evAcc], bytes_in_buffer := 16, bytes_handled := 0,
    calls := [], warns := 0, rms := [], ios := [] }

def stC4c2 : WState :=
  { watches := [(3, { path := "/x", in_move := true })],
    buffer := [], bytes_in_buffer := 0, bytes_handled := 0,
    calls := [], warns := 0, rms := [], ios := [] }

def stC4d : WState := { WState.init with watches := [(7, { path := "/a", in_move := true })] }

def stC4d2 : WState :=
  { watches := [(7, { path := "/b", in_move := true })], buffer := [],
    bytes_in_buffer := 0, bytes_handled := 0,
    calls := [("/b", watchMask 0xfff true)], warns := 0, rms := [], ios := [] }

def rdA : Round := { ready := false, events := [], elapsed := 7 }

def stC6b : WState := { WState.init with watches := [(3, { path := "/a", in_move := false })] }

def rdB : Round := { ready := true, events := [evAcc], elapsed := 8 }

def stC6b2 : WState :=
  { watches := [(3, { path := "/a", in_move := false })], buffer := [],
    bytes_in_buffer := 0, bytes_handled := 0,
    calls := [], warns := 0, rms := [],
    ios := [IOAct.poll 5, IOAct.sleep 0] }

def stC10 : WState :=
  { watches := [(3, { path := "/a", in_move := false })],
    buffer := [evAcc], bytes_in_buffer := 16, bytes_handled := 0,
    calls := [], warns := 0, rms := [], ios := [] }

def stC10b : WState :=
  { watches := [(3, { path := "/a", in_move := false })], buffer := [],
    bytes_in_buffer := 0, bytes_handled := 0,
    calls := [], warns := 0, rms := [], ios := [] }

def rdT : Round := { ready := true, events := [], elapsed := 5 }

theorem listBytes_append (a b : List InEvent) :
    listBytes (a ++ b) = listBytes a + listBytes b := by
  simp [listBytes]

theorem synthesize_ok (wd : Int) (mask : Nat) (recursive : Bool) :
    ∀ (cs : FSChildren) (s s' : WState), synthesize wd mask recursive cs s = .ok s' →
    s'.buffer = s.buffer ++ expectedSynth wd mask recursive cs ∧
    s'.bytes_in_buffer = s.bytes_in_buffer + synthBytes mask recursive cs ∧
    s'.watches = s.watches ∧ s'.calls = s.calls ∧ s'.warns = s.warns ∧
    s'.rms = s.rms ∧ s'.ios = s.ios ∧ s'.bytes_handled = s.bytes_handled
  | .nil, s, s', h => by
    simp only [synthesize] at h
    cases h
    simp [expectedSynth, synthBytes, listBytes]
  | .cons name kind sub rest, s, s', h => by
    have ih := synthesize_ok wd mask recursive rest
    rw [synthesize] at h
    rcases hk : (kind == EntKind.other) with _ | _ <;> rw [hk] at h
    · simp only [Bool.false_eq_true, if_false] at h
      rcases hq : ((mask &&& IN_CREATE != 0) || ((kind == EntKind.dir) && recursive))
          with _ | _ <;> rw [hq] at h
      · simp only [Bool.false_eq_true, if_false] at h
        obtain ⟨h1, h2, h3⟩ := ih _ _ h
        have hcond : (kind != EntKind.other &&
            ((mask &&& IN_CREATE != 0) || (kind == EntKind.dir && recursive))) = false := by
          rw [hq]; simp
        simp only [expectedSynth, synthBytes, listBytes, hcond, Bool.false_eq_true, if_false,
          List.nil_append, List.map_nil, List.sum_nil] at *
        exact ⟨h1, h2, h3⟩
      · simp only [if_true] at h
        have hcond : (kind != EntKind.other &&
            ((mask &&& IN_CREATE != 0) || (kind == EntKind.dir && recursive))) = true := by
          rw [hq]; simp [bne, hk]
        by_cases hc : s.bytes_in_buffer + eventHeaderBytes + eventLen name > bufferCap
        · rw [if_pos hc] at h
          exact absurd h (by simp)
        · rw [if_neg hc] at h
          obtain ⟨h1, h2, h3, h4, h5, h6, h7, h8⟩ := ih _ _ h
          simp only [expectedSynth, synthBytes, listBytes, hcond, if_true] at *
          refine ⟨?_, ?_, h3, h4, h5, h6, h7, h8⟩
          · rw [h1]; simp
          · rw [h2]; simp only [List.map_cons, List.map_append, List.sum_append,
              List.map_singleton, List.sum_cons, List.sum_nil]
            simp [eventBytes, synthEvent]
            omega
    · simp only [if_true] at h
      obtain ⟨h1, h2, h3⟩ := ih _ _ h
      have hcond : (kind != EntKind.other &&
          ((mask &&& IN_CREATE != 0) || (kind == EntKind.dir && recursive))) = false := by
        simp [bne, hk]
      simp only [expectedSynth, synthBytes, listBytes, hcond, Bool.false_eq_true, if_false,
        List.nil_append, List.map_nil, List.sum_nil] at *
      exact ⟨h1, h2, h3⟩

theorem synthBytes_cons (mask : Nat) (recursive : Bool) (name : String) (kind : EntKind)
    (sub : FSTree) (rest : FSChildren) :
    synthBytes mask recursive (.cons name kind sub rest) =
      (if kind != EntKind.other &&
          ((mask &&& IN_CREATE != 0) || (kind == EntKind.dir && recursive)) then
        eventHeaderBytes + eventLen name
      else 0) + synthBytes mask recursive rest := by
  by_cases hc : (kind != EntKind.other &&
      ((mask &&& IN_CREATE != 0) || (kind == EntKind.dir && recursive))) = true
  · simp [synthBytes, expectedSynth, listBytes, hc, eventBytes, synthEvent]
  · simp only [Bool.not_eq_true] at hc
    simp [synthBytes, expectedSynth, listBytes, hc]

theorem synthesize_overflow (wd : Int) (mask : Nat) (recursive : Bool) :
    ∀ (cs : FSChildren) (s : WState),
    bufferCap < s.bytes_in_buffer + synthBytes mask recursive cs →
    0 < synthBytes mask recursive cs →
    synthesize wd mask recursive cs s = .error (.errno 22)
  | .nil, s, hover, hpos => by
    simp [synthBytes, expectedSynth, listBytes] at hpos
  | .cons name kind sub rest, s, hover, hpos => by
    have ih := synthesize_overflow wd mask recursive rest
    rw [synthBytes_cons] at hover hpos
    rw [synthesize]
    rcases hk : (kind == EntKind.other) with _ | _
    · simp only [Bool.false_eq_true, if_false]
      rcases hq : ((mask &&& IN_CREATE != 0) || ((kind == EntKind.dir) && recursive))
          with _ | _
      · simp only [Bool.false_eq_true, if_false]
        have hcond : (kind != EntKind.other &&
            ((mask &&& IN_CREATE != 0) || (kind == EntKind.dir && recursive))) = false := by
          rw [hq]; simp
        rw [hcond] at hover hpos
        simp only [Bool.false_eq_true, if_false, Nat.zero_add] at hover hpos
        exact ih s hover hpos
      · simp only [if_true]
        have hcond : (kind != EntKind.other &&
            ((mask &&& IN_CREATE != 0) || (kind == EntKind.dir && recursive))) = true := by
          rw [hq]; simp [bne, hk]
        rw [hcond] at hover hpos
        simp only [if_true] at hover hpos
        by_cases hc : s.bytes_in_buffer + eventHeaderBytes + eventLen name > bufferCap
        · rw [if_pos hc]
        · rw [if_neg hc]
          simp only [Nat.not_lt, Nat.not_gt_eq] at hc
          refine ih _ (by simp; omega) (by omega)
    · have hcond : (kind != EntKind.other &&
          ((mask &&& IN_CREATE != 0) || (kind == EntKind.dir && recursive))) = false := by
        simp [bne, hk]
      rw [hcond] at hover hpos
      simp only [Bool.false_eq_true, if_false, Nat.zero_add] at hover hpos
      simp only [if_true]
      exact ih s hover hpos

theorem lookup_append (k : Int) (l r : List (Int × Watch)) :
    List.lookup k (l ++ r) = (List.lookup k l).or (List.lookup k r) := by
  induction l with
  | nil => simp [List.lookup]
  | cons a tl ih =>
    obtain ⟨a1, a2⟩ := a
    simp only [List.cons_append, List.lookup]
    by_cases hk : (k == a1) = true
    · rw [hk]; rfl
    · simp only [Bool.not_eq_true] at hk
      rw [hk]
      simpa using ih

theorem lookup_setPath (k wd : Int) (p : String) (ws : List (Int × Watch)) :
    List.lookup k (setPath wd p ws) =
      (List.lookup k ws).map fun w => if k = wd then { w with path := p } else w := by
  induction ws with
  | nil => simp [List.lookup, setPath]
  | cons a tl ih =>
    obtain ⟨a1, a2⟩ := a
    simp only [setPath, List.map_cons] at *
    by_cases hw : (a1 == wd) = true
    · rw [if_pos hw]
      simp only [List.lookup]
      by_cases hk : (k == a1) = true
      · rw [hk]
        simp only [beq_iff_eq] at hk hw
        simp [hk, hw]
      · simp only [Bool.not_eq_true] at hk
        rw [hk]
        exact ih
    · simp only [Bool.not_eq_true] at hw
      rw [if_neg (by simp [hw])]
      simp only [List.lookup]
      by_cases hk : (k == a1) = true
      · rw [hk]
        simp only [beq_iff_eq] at hk hw
        simp only [beq_eq_false_iff_ne, ne_eq] at hw
        subst hk
        simp [hw]
      · simp only [Bool.not_eq_true] at hk
        rw [hk]
        exact ih

theorem lookup_setInMove (k wd : Int) (b : Bool) (ws : List (Int × Watch)) :
    List.lookup k (setInMove wd b ws) =
      (List.lookup k ws).map fun w => if k = wd then { w with in_move := b } else w := by
  induction ws with
  | nil => simp [List.lookup, setInMove]
  | cons a tl ih =>
    obtain ⟨a1, a2⟩ := a
    simp only [setInMove, List.map_cons] at *
    by_cases hw : (a1 == wd) = true
    · rw [if_pos hw]
      simp only [List.lookup]
      by_cases hk : (k == a1) = true
      · rw [hk]
        simp only [beq_iff_eq] at hk hw
        simp [hk, hw]
      · simp only [Bool.not_eq_true] at hk
        rw [hk]
        exact ih
    · simp only [Bool.not_eq_true] at hw
      rw [if_neg (by simp [hw])]
      simp only [List.lookup]
      by_cases hk : (k == a1) = true
      · rw [hk]
        simp only [beq_iff_eq] at hk hw
        simp only [beq_eq_false_iff_ne, ne_eq] at hw
        subst hk
        simp [hw]
      · simp only [Bool.not_eq_true] at hk
        rw [hk]
        exact ih

theorem common_self : ∀ l : List Char, common l l = l.length
  | [] => rfl
  | c :: cs => by simp [common, common_self cs]

theorem common_concat : ∀ (l : List Char) (c : Char), common l (l ++ [c]) = l.length
  | [], c => rfl
  | a :: as, c => by simp [common, common_concat as c]

theorem dupCheck_self (p : String) (r : Bool) : dupCheck p p r = true := by
  simp [dupCheck, common_self]

theorem endsSlash_concat (p : String) : endsSlash (p ++ "/") = true := by
  have : (p ++ "/").data = p.data ++ ['/'] := by
    simp [String.data_append]
  simp [endsSlash, this]

theorem dupCheck_slash (p : String) : dupCheck p (p ++ "/") false = true := by
  have hd : (p ++ "/").data = p.data ++ ['/'] := by simp [String.data_append]
  simp [dupCheck, hd, common_concat]


mutual
theorem aw_silent (reg : String → Nat → Int) (mask : Nat) :
    ∀ (path : String) (t : FSTree) (s : WState),
    ∃ wd s', add_watch reg mask path t true s = .ok (wd, s') ∧
      s'.buffer = s.buffer ∧ s'.bytes_in_buffer = s.bytes_in_buffer ∧
      s'.bytes_handled = s.bytes_handled ∧ s'.rms = s.rms ∧ s'.ios = s.ios
  | path, .node cs, s => by
    simp only [add_watch]
    by_cases hwd : (reg path (watchMask mask (!endsSlash path)) == -1) = true
    · rw [if_pos hwd]
      exact ⟨_, _, rfl, rfl, rfl, rfl, rfl, rfl⟩
    · rw [if_neg hwd]
      rcases hlk : List.lookup (reg path (watchMask mask (!endsSlash path)))
          { s with calls := s.calls ++ [(path, watchMask mask (!endsSlash path))] }.watches
          with _ | w
      · simp only [hlk]
        by_cases hrec : (!endsSlash path) = true
        · rw [if_pos trivial, if_pos hrec]
          obtain ⟨s3, he3, hb3, hbi3, hbh3, hr3, hi3⟩ := as_silent reg mask path cs _
          rw [he3]
          exact ⟨_, _, rfl, hb3, hbi3, hbh3, hr3, hi3⟩
        · rw [if_pos trivial, if_neg hrec]
          exact ⟨_, _, rfl, rfl, rfl, rfl, rfl, rfl⟩
      · simp only [hlk]
        by_cases hdup : dupCheck w.path path (!endsSlash path) = true
        · rw [if_pos hdup]
          exact ⟨_, _, rfl, rfl, rfl, rfl, rfl, rfl⟩
        · rw [if_neg hdup]
          by_cases hrec : (!endsSlash path) = true
          · rw [if_pos trivial, if_pos hrec]
            obtain ⟨s3, he3, hb3, hbi3, hbh3, hr3, hi3⟩ := as_silent reg mask path cs _
            rw [he3]
            exact ⟨_, _, rfl, hb3, hbi3, hbh3, hr3, hi3⟩
          · rw [if_pos trivial, if_neg hrec]
            exact ⟨_, _, rfl, rfl, rfl, rfl, rfl, rfl⟩

theorem as_silent (reg : String → Nat → Int) (mask : Nat) :
    ∀ (parent : String) (cs : FSChildren) (s : WState),
    ∃ s', addSubdirs reg mask parent cs s = .ok s' ∧
      s'.buffer = s.buffer ∧ s'.bytes_in_buffer = s.bytes_in_buffer ∧
      s'.bytes_handled = s.bytes_handled ∧ s'.rms = s.rms ∧ s'.ios = s.ios
  | parent, .nil, s => ⟨s, rfl, rfl, rfl, rfl, rfl, rfl⟩
  | parent, .cons name kind sub rest, s => by
    rw [addSubdirs]
    by_cases hd : (kind == EntKind.dir) = true
    · rw [if_pos hd]
      obtain ⟨wd, s2, he, hb, hbi, hbh, hr, hi⟩ := aw_silent reg mask (pathJoin parent name) sub s
      rw [he]
      dsimp only
      obtain ⟨s3, he3, hb3, hbi3, hbh3, hr3, hi3⟩ := as_silent reg mask parent rest s2
      rw [he3]
      exact ⟨s3, rfl, by rw [hb3, hb], by rw [hbi3, hbi], by rw [hbh3, hbh],
        by rw [hr3, hr], by rw [hi3, hi]⟩
    · rw [if_neg hd]
      exact as_silent reg mask parent rest s
end

/-- Entry in_move preservation through a watch-table transform step. -/
theorem inmove_setPath (k wd : Int) (p : String) (ws : List (Int × Watch)) (w' : Watch)
    (h : List.lookup k (setPath wd p ws) = some w') (hm : w'.in_move = true) :
    ∃ w0, List.lookup k ws = some w0 ∧ w0.in_move = true := by
  rw [lookup_setPath] at h
  rcases hw : List.lookup k ws with _ | w0
  · rw [hw] at h
    simp at h
  · rw [hw] at h
    have h' : some (if k = wd then { w0 with path := p } else w0) = some w' := h
    injection h' with he
    by_cases hk : k = wd
    · rw [if_pos hk] at he
      refine ⟨w0, rfl, ?_⟩
      rw [← he] at hm
      simpa using hm
    · rw [if_neg hk] at he
      subst he
      exact ⟨w0, rfl, hm⟩

theorem inmove_append (k wd : Int) (p : String) (ws : List (Int × Watch)) (w' : Watch)
    (h : List.lookup k (ws ++ [(wd, { path := p, in_move := false })]) = some w')
    (hm : w'.in_move = true) :
    ∃ w0, List.lookup k ws = some w0 ∧ w0.in_move = true := by
  rw [lookup_append] at h
  rcases hw : List.lookup k ws with _ | w0
  · rw [hw] at h
    have h' : List.lookup k [(wd, { path := p, in_move := false : Watch })] = some w' := h
    by_cases hk : (k == wd) = true
    · simp only [List.lookup, hk] at h'
      injection h' with he
      rw [← he] at hm
      simp at hm
    · simp only [Bool.not_eq_true] at hk
      simp only [List.lookup, hk] at h'
      cases h'
  · rw [hw] at h
    have h' : some w0 = some w' := h
    injection h' with he
    subst he
    exact ⟨w0, rfl, hm⟩

mutual
theorem aw_meta (reg : String → Nat → Int) (mask : Nat) :
    ∀ (path : String) (t : FSTree) (im : Bool) (s : WState) (wd : Int) (s' : WState),
    add_watch reg mask path t im s = .ok (wd, s') →
    s'.rms = s.rms ∧ s'.ios = s.ios ∧ s'.bytes_handled = s.bytes_handled ∧
    (∃ l, s'.calls = s.calls ++ (path, watchMask mask (!endsSlash path)) :: l ∧
      ∀ pm ∈ l, pm.2 = watchMask mask (!endsSlash pm.1)) ∧
    (∀ (k : Int) (w' : Watch), List.lookup k s'.watches = some w' → w'.in_move = true →
      ∃ w0, List.lookup k s.watches = some w0 ∧ w0.in_move = true)
  | path, .node cs, im, s, wd, s', h => by
    rw [add_watch] at h
    by_cases hwd : (reg path (watchMask mask (!endsSlash path)) == -1) = true
    · rw [if_pos hwd] at h
      injection h with h1
      injection h1 with e1 e2
      subst e1; subst e2
      refine ⟨rfl, rfl, rfl, ⟨[], by rfl, by simp⟩, ?_⟩
      exact fun k w' hk hm => ⟨w', hk, hm⟩
    · rw [if_neg hwd] at h
      rcases hlk : List.lookup (reg path (watchMask mask (!endsSlash path)))
          { s with calls := s.calls ++ [(path, watchMask mask (!endsSlash path))] }.watches
          with _ | w <;> rw [hlk] at h <;> dsimp only at h
      · -- fresh registration: emplace then descend or synthesize
        by_cases him : im = true
        · rw [if_pos him] at h
          by_cases hrec : (!endsSlash path) = true
          · rw [if_pos hrec] at h
            rcases hsub : addSubdirs reg mask path cs
                { s with
                  watches := s.watches ++
                    [(reg path (watchMask mask (!endsSlash path)), { path := path, in_move := false })],
                  calls := s.calls ++ [(path, watchMask mask (!endsSlash path))] }
                with e | s3 <;> rw [hsub] at h <;> dsimp only at h
            · cases h
            · injection h with h1
              injection h1 with e1 e2
              subst e1; subst e2
              obtain ⟨hr, hi, hbh, ⟨l, hc, hcall⟩, hmove⟩ := as_meta reg mask path cs _ _ hsub
              refine ⟨hr, hi, hbh, ⟨l, by simpa using hc, hcall⟩, ?_⟩
              intro k w' hk hm
              obtain ⟨w1, hk1, hm1⟩ := hmove k w' hk hm
              exact inmove_append _ _ _ _ _ hk1 hm1
          · rw [if_neg hrec] at h
            injection h with h1
            injection h1 with e1 e2
            subst e1; subst e2
            refine ⟨rfl, rfl, rfl, ⟨[], by rfl, by simp⟩, ?_⟩
            intro k w' hk hm
            exact inmove_append _ _ _ _ _ hk hm
        · rw [if_neg him] at h
          rcases hsyn : synthesize (reg path (watchMask mask (!endsSlash path))) mask
              (!endsSlash path) cs
              { s with
                watches := s.watches ++
                  [(reg path (watchMask mask (!endsSlash path)), { path := path, in_move := false })],
                calls := s.calls ++ [(path, watchMask mask (!endsSlash path))] }
              with e | s3 <;> rw [hsyn] at h <;> dsimp only at h
          · cases h
          · injection h with h1
            injection h1 with e1 e2
            subst e1; subst e2
            obtain ⟨hb, hbi, hw, hc, hwar, hr, hi, hbh⟩ := synthesize_ok _ _ _ _ _ _ hsyn
            refine ⟨hr, hi, hbh, ⟨[], by simpa using hc, by simp⟩, ?_⟩
            intro k w' hk hm
            rw [hw] at hk
            exact inmove_append _ _ _ _ _ hk hm
      · -- identifier already registered
        by_cases hdup : dupCheck w.path path (!endsSlash path) = true
        · rw [if_pos hdup] at h
          injection h with h1
          injection h1 with e1 e2
          subst e1; subst e2
          refine ⟨rfl, rfl, rfl, ⟨[], by rfl, by simp⟩, ?_⟩
          exact fun k w' hk hm => ⟨w', hk, hm⟩
        · rw [if_neg hdup] at h
          by_cases him : im = true
          · rw [if_pos him] at h
            by_cases hrec : (!endsSlash path) = true
            · rw [if_pos hrec] at h
              rcases hsub : addSubdirs reg mask path cs
                  { s with
                    watches := setPath (reg path (watchMask mask (!endsSlash path))) path s.watches,
                    calls := s.calls ++ [(path, watchMask mask (!endsSlash path))] }
                  with e | s3 <;> rw [hsub] at h <;> dsimp only at h
              · cases h
              · injection h with h1
                injection h1 with e1 e2
                subst e1; subst e2
                obtain ⟨hr, hi, hbh, ⟨l, hc, hcall⟩, hmove⟩ := as_meta reg mask path cs _ _ hsub
                refine ⟨hr, hi, hbh, ⟨l, by simpa using hc, hcall⟩, ?_⟩
                intro k w' hk hm
                obtain ⟨w1, hk1, hm1⟩ := hmove k w' hk hm
                exact inmove_setPath _ _ _ _ _ hk1 hm1
            · rw [if_neg hrec] at h
              injection h with h1
              injection h1 with e1 e2
              subst e1; subst e2
              refine ⟨rfl, rfl, rfl, ⟨[], by rfl, by simp⟩, ?_⟩
              intro k w' hk hm
              exact inmove_setPath _ _ _ _ _ hk hm
          · rw [if_neg him] at h
            rcases hsyn : synthesize (reg path (watchMask mask (!endsSlash path))) mask
                (!endsSlash path) cs
                { s with
                  watches := setPath (reg path (watchMask mask (!endsSlash path))) path s.watches,
                  calls := s.calls ++ [(path, watchMask mask (!endsSlash path))] }
                with e | s3 <;> rw [hsyn] at h <;> dsimp only at h
            · cases h
            · injection h with h1
              injection h1 with e1 e2
              subst e1; subst e2
              obtain ⟨hb, hbi, hw, hc, hwar, hr, hi, hbh⟩ := synthesize_ok _ _ _ _ _ _ hsyn
              refine ⟨hr, hi, hbh, ⟨[], by simpa using hc, by simp⟩, ?_⟩
              intro k w' hk hm
              rw [hw] at hk
              exact inmove_setPath _ _ _ _ _ hk hm

theorem as_meta (reg : String → Nat → Int) (mask : Nat) :
    ∀ (parent : String) (cs : FSChildren) (s s' : WState),
    addSubdirs reg mask parent cs s = .ok s' →
    s'.rms = s.rms ∧ s'.ios = s.ios ∧ s'.bytes_handled = s.bytes_handled ∧
    (∃ l, s'.calls = s.calls ++ l ∧
      ∀ pm ∈ l, pm.2 = watchMask mask (!endsSlash pm.1)) ∧
    (∀ (k : Int) (w' : Watch), List.lookup k s'.watches = some w' → w'.in_move = true →
      ∃ w0, List.lookup k s.watches = some w0 ∧ w0.in_move = true)
  | parent, .nil, s, s', h => by
    rw [addSubdirs] at h
    injection h with h1
    subst h1
    refine ⟨rfl, rfl, rfl, ⟨[], by simp, by simp⟩, ?_⟩
    exact fun k w' hk hm => ⟨w', hk, hm⟩
  | parent, .cons name kind sub rest, s, s', h => by
    rw [addSubdirs] at h
    by_cases hd : (kind == EntKind.dir) = true
    · rw [if_pos hd] at h
      rcases haw : add_watch reg mask (pathJoin parent name) sub true s
          with e | p <;> rw [haw] at h <;> dsimp only at h
      · cases h
      · obtain ⟨wd1, s2⟩ := p
        obtain ⟨hr2, hi2, hbh2, ⟨l2, hc2, hcall2⟩, hmove2⟩ :=
          aw_meta reg mask (pathJoin parent name) sub true s wd1 s2 haw
        obtain ⟨hr3, hi3, hbh3, ⟨l3, hc3, hcall3⟩, hmove3⟩ :=
          as_meta reg mask parent rest s2 s' h
        refine ⟨by rw [hr3, hr2], by rw [hi3, hi2], by rw [hbh3, hbh2],
          ⟨(pathJoin parent name, watchMask mask (!endsSlash (pathJoin parent name))) :: l2 ++ l3,
            ?_, ?_⟩, ?_⟩
        · rw [hc3, hc2]; simp
        · intro pm hpm
          simp only [List.mem_cons, List.mem_append] at hpm
          rcases hpm with (hpm | hpm) | hpm
          · rw [hpm]
          · exact hcall2 pm hpm
          · exact hcall3 pm hpm
        · intro k w' hk hm
          obtain ⟨w1, hk1, hm1⟩ := hmove3 k w' hk hm
          exact hmove2 k w1 hk1 hm1
    · rw [if_neg hd] at h
      exact as_meta reg mask parent rest s s' h
end

/-- Calls of an `addSubdirs` pass contain one registration per subdirectory
    child, at the joined path. -/
theorem as_child_calls (reg : String → Nat → Int) (mask : Nat) :
    ∀ (parent : String) (cs : FSChildren) (s s' : WState),
    addSubdirs reg mask parent cs s = .ok s' →
    ∀ name kind sub, (name, kind, sub) ∈ cs.toList → kind = EntKind.dir →
    (pathJoin parent name,
      watchMask mask (!endsSlash (pathJoin parent name))) ∈ s'.calls
  | parent, .nil, s, s', h => by
    intro name kind sub hmem
    simp [FSChildren.toList] at hmem
  | parent, .cons nm kd sb rest, s, s', h => by
    intro name kind sub hmem hdir
    rw [addSubdirs] at h
    simp only [FSChildren.toList, List.mem_cons] at hmem
    by_cases hd : (kd == EntKind.dir) = true
    · rw [if_pos hd] at h
      rcases haw : add_watch reg mask (pathJoin parent nm) sb true s
          with e | p <;> rw [haw] at h <;> dsimp only at h
      · cases h
      · obtain ⟨wd1, s2⟩ := p
        rcases hmem with hmem | hmem
        · injection hmem with h1 h2
          injection h2 with h3 h4
          subst h1; subst h3; subst h4
          obtain ⟨-, -, -, ⟨l2, hc2, -⟩, -⟩ :=
            aw_meta reg mask (pathJoin parent name) sub true s wd1 s2 haw
          obtain ⟨-, -, -, ⟨l3, hc3, -⟩, -⟩ := as_meta reg mask parent rest s2 s' h
          rw [hc3, hc2]
          simp
        · exact as_child_calls reg mask parent rest s2 s' h name kind sub hmem hdir
    · rw [if_neg hd] at h
      rcases hmem with hmem | hmem
      · injection hmem with h1 h2
        injection h2 with h3 h4
        subst h1; subst h3; subst h4
        exact absurd hdir (by simpa using hd)
      · exact as_child_calls reg mask parent rest s s' h name kind sub hmem hdir

theorem lookup_eraseKey (k wd : Int) (ws : List (Int × Watch)) :
    List.lookup k (eraseKey wd ws) = if k = wd then none else List.lookup k ws := by
  induction ws with
  | nil => simp [eraseKey, List.lookup]
  | cons a tl ih =>
    obtain ⟨a1, a2⟩ := a
    have hstep : eraseKey wd ((a1, a2) :: tl) =
        if a1 = wd then eraseKey wd tl else (a1, a2) :: eraseKey wd tl := by
      by_cases haw : a1 = wd
      · simp [eraseKey, List.filter_cons, haw]
      · simp [eraseKey, List.filter_cons, haw]
    rw [hstep]
    by_cases haw : a1 = wd
    · rw [if_pos haw, ih]
      subst haw
      by_cases hk : k = a1
      · simp [hk]
      · rw [if_neg hk, if_neg hk]
        simp [List.lookup, show (k == a1) = false by simpa using hk]
    · rw [if_neg haw]
      by_cases hk : k = a1
      · have hne : ¬ k = wd := by rw [hk]; exact haw
        rw [if_neg hne]
        subst hk
        simp [List.lookup]
      · have hbeq : (k == a1) = false := by simpa using hk
        simp only [List.lookup, hbeq]
        exact ih

/-- The self-move handling of `read`, isolated: hypotheses restrict the
    record to a pure `IN_MOVE_SELF` notification with sane byte framing. -/
theorem drainStep_moveself (reg : String → Nat → Int) (fsAt : String → FSTree) (mask : Nat)
    (s : WState) (e : InEvent) (rest : List InEvent) (w : Watch)
    (hbuf : s.buffer = e :: rest)
    (hsane : s.bytes_handled + eventBytes e ≤ s.bytes_in_buffer)
    (hlk : List.lookup e.wd s.watches = some w)
    (hnosub : e.mask &&& (IN_CREATE ||| IN_MOVED_TO) = 0)
    (hms : e.mask &&& IN_MOVE_SELF ≠ 0)
    (hnign : e.mask &&& IN_IGNORED = 0) :
    ∃ s', drainStep reg fsAt mask s =
        .ok ((if e.mask &&& mask != 0 then some e else none), s') ∧
      s'.watches = (if w.in_move then setInMove e.wd false s.watches else s.watches) ∧
      s'.rms = (if w.in_move then s.rms
                else if endsSlash w.path then s.rms ++ [e.wd]
                else s.rms ++ prefixRemovals w.path s.watches) ∧
      s'.buffer = rest ∧ s'.ios = s.ios ∧ s'.calls = s.calls ∧ s'.warns = s.warns := by
  rw [drainStep, hbuf]
  dsimp only
  rw [if_neg (by omega)]
  have hsubcond : ((e.mask &&& (IN_CREATE ||| IN_MOVED_TO) != 0) &&
      (e.mask &&& IN_ISDIR != 0) && !endsSlash w.path) = false := by
    simp [hnosub]
  have hmscond : (e.mask &&& IN_MOVE_SELF != 0) = true := by
    simpa using hms
  have higncond : (e.mask &&& IN_IGNORED != 0) = false := by
    simp [hnign]
  by_cases heq : (s.bytes_handled + eventBytes e == s.bytes_in_buffer) = true
  · rw [if_pos heq]
    dsimp only
    rw [hlk]
    dsimp only
    rw [hsubcond]
    simp only [Bool.false_eq_true, if_false]
    rw [finishEvent]
    dsimp only
    rw [hmscond]
    simp only [if_true]
    rw [hlk]
    dsimp only
    rw [higncond]
    simp only [Bool.false_eq_true, if_false]
    by_cases him : w.in_move = true
    · rw [if_pos him]
      refine ⟨_, rfl, ?_, ?_, rfl, rfl, rfl, rfl⟩ <;> simp [him]
    · have him2 : w.in_move = false := by simpa using him
      rw [if_neg him]
      by_cases hsl : endsSlash w.path = true
      · rw [if_pos hsl]
        refine ⟨_, rfl, ?_, ?_, rfl, rfl, rfl, rfl⟩ <;> simp [him2, hsl]
      · have hsl2 : endsSlash w.path = false := by simpa using hsl
        rw [if_neg hsl]
        refine ⟨_, rfl, ?_, ?_, rfl, rfl, rfl, rfl⟩ <;> simp [him2, hsl2]
  · rw [if_neg heq]
    dsimp only
    rw [hlk]
    dsimp only
    rw [hsubcond]
    simp only [Bool.false_eq_true, if_false]
    rw [finishEvent]
    dsimp only
    rw [hmscond]
    simp only [if_true]
    rw [hlk]
    dsimp only
    rw [higncond]
    simp only [Bool.false_eq_true, if_false]
    by_cases him : w.in_move = true
    · rw [if_pos him]
      refine ⟨_, rfl, ?_, ?_, rfl, rfl, rfl, rfl⟩ <;> simp [him]
    · have him2 : w.in_move = false := by simpa using him
      rw [if_neg him]
      by_cases hsl : endsSlash w.path = true
      · rw [if_pos hsl]
        refine ⟨_, rfl, ?_, ?_, rfl, rfl, rfl, rfl⟩ <;> simp [him2, hsl]
      · have hsl2 : endsSlash w.path = false := by simpa using hsl
        rw [if_neg hsl]
        refine ⟨_, rfl, ?_, ?_, rfl, rfl, rfl, rfl⟩ <;> simp [him2, hsl2]

theorem noRaise_refl (a : List (Int × Watch)) : NoRaise a a :=
  fun _ w' h hm => ⟨w', h, hm⟩

theorem noRaise_trans {a b c : List (Int × Watch)} (h1 : NoRaise a b) (h2 : NoRaise b c) :
    NoRaise a c := by
  intro k w' h hm
  obtain ⟨w1, hb, hm1⟩ := h2 k w' h hm
  exact h1 k w1 hb hm1

theorem noRaise_clear (wd : Int) (a : List (Int × Watch)) :
    NoRaise a (setInMove wd false a) := by
  intro k w' h hm
  rw [lookup_setInMove] at h
  rcases hw : List.lookup k a with _ | w0
  · rw [hw] at h; cases h
  · rw [hw] at h
    have h' : some (if k = wd then { w0 with in_move := false } else w0) = some w' := h
    injection h' with he
    by_cases hk : k = wd
    · rw [if_pos hk] at he
      rw [← he] at hm
      simp at hm
    · rw [if_neg hk] at he
      subst he
      exact ⟨w0, rfl, hm⟩

theorem noRaise_erase (wd : Int) (a : List (Int × Watch)) :
    NoRaise a (eraseKey wd a) := by
  intro k w' h hm
  rw [lookup_eraseKey] at h
  by_cases hk : k = wd
  · rw [if_pos hk] at h; cases h
  · rw [if_neg hk] at h
    exact ⟨w', h, hm⟩

theorem setInMove_raise_cases (wd2 k : Int) (a : List (Int × Watch)) (w' : Watch)
    (h : List.lookup k (setInMove wd2 true a) = some w') (hm : w'.in_move = true) :
    k = wd2 ∨ ∃ w0, List.lookup k a = some w0 ∧ w0.in_move = true := by
  rw [lookup_setInMove] at h
  rcases hw : List.lookup k a with _ | w0
  · rw [hw] at h; cases h
  · rw [hw] at h
    have h' : some (if k = wd2 then { w0 with in_move := true } else w0) = some w' := h
    injection h' with he
    by_cases hk : k = wd2
    · exact Or.inl hk
    · rw [if_neg hk] at he
      subst he
      exact Or.inr ⟨w0, rfl, hm⟩

theorem finishEvent_meta (mask : Nat) (e : InEvent) (t : WState) (r : Option InEvent)
    (s5 : WState) (h : finishEvent mask e t = (r, s5)) :
    s5.ios = t.ios ∧ s5.calls = t.calls ∧ s5.buffer = t.buffer ∧
    s5.bytes_in_buffer = t.bytes_in_buffer ∧ s5.bytes_handled = t.bytes_handled ∧
    s5.warns = t.warns ∧ NoRaise t.watches s5.watches ∧
    r = (if e.mask &&& mask != 0 then some e else none) := by
  rw [finishEvent] at h
  by_cases hms : (e.mask &&& IN_MOVE_SELF != 0) = true
  · rw [if_pos hms] at h
    rcases hlk : List.lookup e.wd t.watches with _ | w2 <;> rw [hlk] at h <;> dsimp only at h
    · by_cases hig : (e.mask &&& IN_IGNORED != 0) = true
      · rw [if_pos hig] at h
        injection h with h1 h2
        subst h2
        exact ⟨rfl, rfl, rfl, rfl, rfl, rfl, noRaise_erase _ _, h1.symm⟩
      · rw [if_neg hig] at h
        injection h with h1 h2
        subst h2
        exact ⟨rfl, rfl, rfl, rfl, rfl, rfl, noRaise_refl _, h1.symm⟩
    · by_cases him : w2.in_move = true
      · rw [if_pos him] at h
        by_cases hig : (e.mask &&& IN_IGNORED != 0) = true
        · rw [if_pos hig] at h
          injection h with h1 h2
          subst h2
          refine ⟨rfl, rfl, rfl, rfl, rfl, rfl, ?_, h1.symm⟩
          exact noRaise_trans (noRaise_clear _ _) (noRaise_erase _ _)
        · rw [if_neg hig] at h
          injection h with h1 h2
          subst h2
          exact ⟨rfl, rfl, rfl, rfl, rfl, rfl, noRaise_clear _ _, h1.symm⟩
      · rw [if_neg him] at h
        by_cases hsl : endsSlash w2.path = true
        · rw [if_pos hsl] at h
          by_cases hig : (e.mask &&& IN_IGNORED != 0) = true
          · rw [if_pos hig] at h
            injection h with h1 h2
            subst h2
            exact ⟨rfl, rfl, rfl, rfl, rfl, rfl, noRaise_erase _ _, h1.symm⟩
          · rw [if_neg hig] at h
            injection h with h1 h2
            subst h2
            exact ⟨rfl, rfl, rfl, rfl, rfl, rfl, noRaise_refl _, h1.symm⟩
        · rw [if_neg hsl] at h
          by_cases hig : (e.mask &&& IN_IGNORED != 0) = true
          · rw [if_pos hig] at h
            injection h with h1 h2
            subst h2
            exact ⟨rfl, rfl, rfl, rfl, rfl, rfl, noRaise_erase _ _, h1.symm⟩
          · rw [if_neg hig] at h
            injection h with h1 h2
            subst h2
            exact ⟨rfl, rfl, rfl, rfl, rfl, rfl, noRaise_refl _, h1.symm⟩
  · rw [if_neg hms] at h
    by_cases hig : (e.mask &&& IN_IGNORED != 0) = true
    · rw [if_pos hig] at h
      injection h with h1 h2
      subst h2
      exact ⟨rfl, rfl, rfl, rfl, rfl, rfl, noRaise_erase _ _, h1.symm⟩
    · rw [if_neg hig] at h
      injection h with h1 h2
      subst h2
      exact ⟨rfl, rfl, rfl, rfl, rfl, rfl, noRaise_refl _, h1.symm⟩

/-- Frame facts of one drain pass: the suspension trace is untouched, and a
    one-shot `in_move` flag can only be newly raised by processing a
    moved-in directory record. -/
theorem drainStep_meta (reg : String → Nat → Int) (fsAt : String → FSTree) (mask : Nat)
    (s : WState) (r : Option InEvent) (s' : WState)
    (h : drainStep reg fsAt mask s = .ok (r, s')) :
    s'.ios = s.ios ∧
    ∀ (k : Int) (w' : Watch), List.lookup k s'.watches = some w' → w'.in_move = true →
      (∃ w0, List.lookup k s.watches = some w0 ∧ w0.in_move = true) ∨
      (∃ e rest, s.buffer = e :: rest ∧
        e.mask &&& IN_MOVED_TO ≠ 0 ∧ e.mask &&& IN_ISDIR ≠ 0) := by
  rw [drainStep] at h
  rcases hbuf : s.buffer with _ | ⟨e, rest⟩ <;> rw [hbuf] at h <;> dsimp only at h
  · injection h with h1
    injection h1 with e1 e2
    subst e1; subst e2
    exact ⟨rfl, fun k w' hk hm => Or.inl ⟨w', hk, hm⟩⟩
  · by_cases hov : s.bytes_handled + eventBytes e > s.bytes_in_buffer
    · rw [if_pos hov] at h
      cases h
    · rw [if_neg hov] at h
      by_cases heq : (s.bytes_handled + eventBytes e == s.bytes_in_buffer) = true
      · rw [if_pos heq] at h
        dsimp only at h
        rcases hlk : List.lookup e.wd s.watches with _ | w <;> rw [hlk] at h <;> dsimp only at h
        · cases h
        · by_cases hsub : ((e.mask &&& (IN_CREATE ||| IN_MOVED_TO) != 0) &&
              (e.mask &&& IN_ISDIR != 0) && !endsSlash w.path) = true
          · rw [if_pos hsub] at h
            split at h
            · cases h
            · rename_i wd2 s3 haw
              obtain ⟨-, hi3, -, -, hraise3⟩ := aw_meta reg mask _ _ _ _ _ _ haw
              by_cases hsim : ((e.mask &&& IN_MOVED_TO != 0) && decide (wd2 ≥ 0)) = true
              · rw [if_pos hsim] at h
                injection h with h1
                obtain ⟨hio5, -, -, -, -, -, hnr5, -⟩ := finishEvent_meta mask e _ _ _ h1
                constructor
                · exact hio5.trans (hi3.trans rfl)
                · intro k w' hk hm
                  obtain ⟨w1, hk1, hm1⟩ := hnr5 k w' hk hm
                  rcases setInMove_raise_cases wd2 k s3.watches w1 hk1 hm1
                      with hkw | ⟨w0, hk0, hm0⟩
                  · refine Or.inr ⟨e, rest, rfl, ?_, ?_⟩
                    · have hmv : (e.mask &&& IN_MOVED_TO != 0) = true := by
                        have h2 := hsim
                        simp only [Bool.and_eq_true] at h2
                        exact h2.1
                      simpa using hmv
                    · have hdir : (e.mask &&& IN_ISDIR != 0) = true := by
                        have h2 := hsub
                        simp only [Bool.and_eq_true] at h2
                        exact h2.1.2
                      simpa using hdir
                  · obtain ⟨w00, hk00, hm00⟩ := hraise3 k w0 hk0 hm0
                    exact Or.inl ⟨w00, hk00, hm00⟩
              · rw [if_neg hsim] at h
                injection h with h1
                obtain ⟨hio5, -, -, -, -, -, hnr5, -⟩ := finishEvent_meta mask e _ _ _ h1
                constructor
                · exact hio5.trans (hi3.trans rfl)
                · intro k w' hk hm
                  obtain ⟨w1, hk1, hm1⟩ := hnr5 k w' hk hm
                  obtain ⟨w00, hk00, hm00⟩ := hraise3 k w1 hk1 hm1
                  exact Or.inl ⟨w00, hk00, hm00⟩
          · rw [if_neg hsub] at h
            injection h with h1
            obtain ⟨hio5, -, -, -, -, -, hnr5, -⟩ := finishEvent_meta mask e _ _ _ h1
            constructor
            · exact hio5.trans rfl
            · intro k w' hk hm
              obtain ⟨w1, hk1, hm1⟩ := hnr5 k w' hk hm
              exact Or.inl ⟨w1, hk1, hm1⟩
      · rw [if_neg heq] at h
        dsimp only at h
        rcases hlk : List.lookup e.wd s.watches with _ | w <;> rw [hlk] at h <;> dsimp only at h
        · cases h
        · by_cases hsub : ((e.mask &&& (IN_CREATE ||| IN_MOVED_TO) != 0) &&
              (e.mask &&& IN_ISDIR != 0) && !endsSlash w.path) = true
          · rw [if_pos hsub] at h
            split at h
            · cases h
            · rename_i wd2 s3 haw
              obtain ⟨-, hi3, -, -, hraise3⟩ := aw_meta reg mask _ _ _ _ _ _ haw
              by_cases hsim : ((e.mask &&& IN_MOVED_TO != 0) && decide (wd2 ≥ 0)) = true
              · rw [if_pos hsim] at h
                injection h with h1
                obtain ⟨hio5, -, -, -, -, -, hnr5, -⟩ := finishEvent_meta mask e _ _ _ h1
                constructor
                · exact hio5.trans (hi3.trans rfl)
                · intro k w' hk hm
                  obtain ⟨w1, hk1, hm1⟩ := hnr5 k w' hk hm
                  rcases setInMove_raise_cases wd2 k s3.watches w1 hk1 hm1
                      with hkw | ⟨w0, hk0, hm0⟩
                  · refine Or.inr ⟨e, rest, rfl, ?_, ?_⟩
                    · have hmv : (e.mask &&& IN_MOVED_TO != 0) = true := by
                        have h2 := hsim
                        simp only [Bool.and_eq_true] at h2
                        exact h2.1
                      simpa using hmv
                    · have hdir : (e.mask &&& IN_ISDIR != 0) = true := by
                        have h2 := hsub
                        simp only [Bool.and_eq_true] at h2
                        exact h2.1.2
                      simpa using hdir
                  · obtain ⟨w00, hk00, hm00⟩ := hraise3 k w0 hk0 hm0
                    exact Or.inl ⟨w00, hk00, hm00⟩
              · rw [if_neg hsim] at h
                injection h with h1
                obtain ⟨hio5, -, -, -, -, -, hnr5, -⟩ := finishEvent_meta mask e _ _ _ h1
                constructor
                · exact hio5.trans (hi3.trans rfl)
                · intro k w' hk hm
                  obtain ⟨w1, hk1, hm1⟩ := hnr5 k w' hk hm
                  obtain ⟨w00, hk00, hm00⟩ := hraise3 k w1 hk1 hm1
                  exact Or.inl ⟨w00, hk00, hm00⟩
          · rw [if_neg hsub] at h
            injection h with h1
            obtain ⟨hio5, -, -, -, -, -, hnr5, -⟩ := finishEvent_meta mask e _ _ _ h1
            constructor
            · exact hio5.trans rfl
            · intro k w' hk hm
              obtain ⟨w1, hk1, hm1⟩ := hnr5 k w' hk hm
              exact Or.inl ⟨w1, hk1, hm1⟩

theorem drain_ios (reg : String → Nat → Int) (fsAt : String → FSTree) (mask : Nat) :
    ∀ (fuel : Nat) (s : WState) (r : Option InEvent) (s' : WState),
    drain reg fsAt mask fuel s = .ok (r, s') → s'.ios = s.ios
  | 0, s, r, s', h => by
    rw [drain] at h
    cases h
  | fuel + 1, s, r, s', h => by
    rw [drain] at h
    rcases hds : drainStep reg fsAt mask s with er | p <;> rw [hds] at h
    · cases h
    · obtain ⟨o, s2⟩ := p
      obtain ⟨hio, -⟩ := drainStep_meta reg fsAt mask s o s2 hds
      rcases o with _ | e
      · dsimp only at h
        by_cases hbh : s2.bytes_handled > 0
        · rw [if_pos hbh] at h
          exact (drain_ios reg fsAt mask fuel s2 r s' h).trans hio
        · rw [if_neg hbh] at h
          injection h with h1
          injection h1 with e1 e2
          subst e1; subst e2
          exact hio
      · dsimp only at h
        injection h with h1
        injection h1 with e1 e2
        subst e1; subst e2
        exact hio

theorem elapsedSum_nil : elapsedSum [] = 0 := rfl

theorem elapsedSum_cons (r : Round) (rs : List Round) :
    elapsedSum (r :: rs) = r.elapsed + elapsedSum rs := by
  simp [elapsedSum]

theorem readOutBound_lift_neg (r : Round) (rounds : List Round) (t : Int) (out : ReadOut)
    (ht : t < 0) (h : ReadOutBound rounds t out) : ReadOutBound (r :: rounds) t out := by
  rcases out with e | ⟨b, s2, left⟩ | ⟨s2, left⟩ | s2 <;> simp only [ReadOutBound] at *
  · obtain ⟨pre, r1, hsplit, hready, hneg, hpos⟩ := h
    exact ⟨r :: pre, r1, by rw [hsplit]; rfl, hready, hneg, fun hge => absurd ht (by omega)⟩
  · exact absurd h.1 (by omega)

theorem readOutBound_lift_pos (r : Round) (rounds : List Round) (t : Int) (out : ReadOut)
    (ht : 0 ≤ t) (hrem : t - r.elapsed > 0)
    (h : ReadOutBound rounds (t - r.elapsed) out) : ReadOutBound (r :: rounds) t out := by
  rcases out with e | ⟨b, s2, left⟩ | ⟨s2, left⟩ | s2 <;> simp only [ReadOutBound] at *
  · obtain ⟨pre, r1, hsplit, hready, hneg, hpos⟩ := h
    refine ⟨r :: pre, r1, by rw [hsplit]; rfl, hready, fun hlt => absurd hlt (by omega), ?_⟩
    intro hge
    obtain ⟨hb, hb0⟩ := hpos (by omega)
    rw [elapsedSum_cons]
    constructor
    · omega
    · exact hb0
  · obtain ⟨-, pre, r1, hsplit, h1, h2⟩ := h
    refine ⟨ht, r :: pre, r1, by rw [hsplit]; rfl, ?_, ?_⟩ <;> rw [elapsedSum_cons] <;> omega

theorem readLoop_spec (reg : String → Nat → Int) (fsAt : String → FSTree) (mask : Nat)
    (rd : Nat) (df : Nat) :
    ∀ (rounds : List Round) (t : Int) (s : WState) (out : ReadOut),
    readLoop reg fsAt mask rd df rounds t s = .ok out → ReadOutBound rounds t out
  | [], t, s, out, h => by
    rw [readLoop] at h
    injection h with h1
    subst h1
    simp [ReadOutBound]
  | r :: rest, t, s, out, h => by
    have ih := readLoop_spec reg fsAt mask rd df rest
    rw [readLoop] at h
    by_cases hbe : s.buffer.isEmpty = true
    · rw [if_pos hbe] at h
      dsimp only at h
      by_cases hready : r.ready = true
      · rw [if_pos hready] at h
        by_cases hev : r.events.isEmpty = true
        · rw [if_pos hev] at h
          cases h
        · rw [if_neg hev] at h
          split at h
          · cases h
          · rename_i e4 s4 hdr
            injection h with h1
            subst h1
            simp [ReadOutBound]
          · rename_i s4 hdr
            by_cases ht : t < 0
            · rw [if_pos ht] at h
              exact readOutBound_lift_neg r rest t out ht (ih t s4 out h)
            · rw [if_neg ht] at h
              by_cases ht2 : t - r.elapsed > 0
              · rw [if_pos ht2] at h
                exact readOutBound_lift_pos r rest t out (by omega) ht2
                  (ih (t - r.elapsed) s4 out h)
              · rw [if_neg ht2] at h
                injection h with h1
                subst h1
                simp only [ReadOutBound]
                refine ⟨by omega, [], r, rfl, ?_, ?_⟩ <;> rw [elapsedSum_nil] <;> omega
      · rw [if_neg hready] at h
        injection h with h1
        subst h1
        exact ⟨[], r, rfl, by simpa using hready, fun _ => rfl,
          fun hge => ⟨by rw [elapsedSum_nil]; omega, hge⟩⟩
    · rw [if_neg hbe] at h
      split at h
      · cases h
      · rename_i e4 s4 hdr
        injection h with h1
        subst h1
        simp [ReadOutBound]
      · rename_i s4 hdr
        by_cases ht : t < 0
        · rw [if_pos ht] at h
          exact readOutBound_lift_neg r rest t out ht (ih t s4 out h)
        · rw [if_neg ht] at h
          by_cases ht2 : t - r.elapsed > 0
          · rw [if_pos ht2] at h
            exact readOutBound_lift_pos r rest t out (by omega) ht2
              (ih (t - r.elapsed) s4 out h)
          · rw [if_neg ht2] at h
            injection h with h1
            subst h1
            simp only [ReadOutBound]
            refine ⟨by omega, [], r, rfl, ?_, ?_⟩ <;> rw [elapsedSum_nil] <;> omega

/-- A record handed back by a drain pass always intersects the interest
    mask (it is produced by the final mask check of `finishEvent`). -/
theorem drainStep_ret (reg : String → Nat → Int) (fsAt : String → FSTree) (mask : Nat)
    (s : WState) (r : Option InEvent) (s' : WState)
    (h : drainStep reg fsAt mask s = .ok (r, s')) :
    ∀ e2, r = some e2 → e2.mask &&& mask ≠ 0 := by
  rw [drainStep] at h
  rcases hbuf : s.buffer with _ | ⟨e, rest⟩ <;> rw [hbuf] at h <;> dsimp only at h
  · injection h with h1
    injection h1 with e1 e2
    subst e1; subst e2
    intro e2 he2
    cases he2
  · by_cases hov : s.bytes_handled + eventBytes e > s.bytes_in_buffer
    · rw [if_pos hov] at h
      cases h
    · rw [if_neg hov] at h
      by_cases heq : (s.bytes_handled + eventBytes e == s.bytes_in_buffer) = true
      · rw [if_pos heq] at h
        dsimp only at h
        rcases hlk : List.lookup e.wd s.watches with _ | w <;> rw [hlk] at h <;> dsimp only at h
        · cases h
        · by_cases hsub : ((e.mask &&& (IN_CREATE ||| IN_MOVED_TO) != 0) &&
              (e.mask &&& IN_ISDIR != 0) && !endsSlash w.path) = true
          · rw [if_pos hsub] at h
            split at h
            · cases h
            · rename_i wd2 s3 haw
              injection h with h1
              obtain ⟨-, -, -, -, -, -, -, hr5⟩ := finishEvent_meta mask e _ _ _ h1
              intro e2 he2
              rw [he2] at hr5
              by_cases hmm : (e.mask &&& mask != 0) = true
              · rw [if_pos hmm] at hr5
                injection hr5 with he3
                rw [he3]
                simpa using hmm
              · rw [if_neg hmm] at hr5
                cases hr5
          · rw [if_neg hsub] at h
            injection h with h1
            obtain ⟨-, -, -, -, -, -, -, hr5⟩ := finishEvent_meta mask e _ _ _ h1
            intro e2 he2
            rw [he2] at hr5
            by_cases hmm : (e.mask &&& mask != 0) = true
            · rw [if_pos hmm] at hr5
              injection hr5 with he3
              rw [he3]
              simpa using hmm
            · rw [if_neg hmm] at hr5
              cases hr5
      · rw [if_neg heq] at h
        dsimp only at h
        rcases hlk : List.lookup e.wd s.watches with _ | w <;> rw [hlk] at h <;> dsimp only at h
        · cases h
        · by_cases hsub : ((e.mask &&& (IN_CREATE ||| IN_MOVED_TO) != 0) &&
              (e.mask &&& IN_ISDIR != 0) && !endsSlash w.path) = true
          · rw [if_pos hsub] at h
            split at h
            · cases h
            · rename_i wd2 s3 haw
              injection h with h1
              obtain ⟨-, -, -, -, -, -, -, hr5⟩ := finishEvent_meta mask e _ _ _ h1
              intro e2 he2
              rw [he2] at hr5
              by_cases hmm : (e.mask &&& mask != 0) = true
              · rw [if_pos hmm] at hr5
                injection hr5 with he3
                rw [he3]
                simpa using hmm
              · rw [if_neg hmm] at hr5
                cases hr5
          · rw [if_neg hsub] at h
            injection h with h1
            obtain ⟨-, -, -, -, -, -, -, hr5⟩ := finishEvent_meta mask e _ _ _ h1
            intro e2 he2
            rw [he2] at hr5
            by_cases hmm : (e.mask &&& mask != 0) = true
            · rw [if_pos hmm] at hr5
              injection hr5 with he3
              rw [he3]
              simpa using hmm
            · rw [if_neg hmm] at hr5
              cases hr5

theorem drain_some (reg : String → Nat → Int) (fsAt : String → FSTree) (mask : Nat) :
    ∀ (fuel : Nat) (s : WState) (e : InEvent) (s' : WState),
    drain reg fsAt mask fuel s = .ok (some e, s') → e.mask &&& mask ≠ 0
  | 0, s, e, s', h => by
    rw [drain] at h
    cases h
  | fuel + 1, s, e, s', h => by
    rw [drain] at h
    rcases hds : drainStep reg fsAt mask s with er | p <;> rw [hds] at h
    · cases h
    · obtain ⟨o, s2⟩ := p
      rcases o with _ | e0
      · dsimp only at h
        by_cases hbh : s2.bytes_handled > 0
        · rw [if_pos hbh] at h
          exact drain_some reg fsAt mask fuel s2 e s' h
        · rw [if_neg hbh] at h
          cases h
      · dsimp only at h
        injection h with h1
        injection h1 with e1 e2
        subst e2
        injection e1 with e3
        subst e3
        exact drainStep_ret reg fsAt mask s (some e0) s2 hds e0 rfl

theorem lookup_mem (k : Int) (v : Watch) :
    ∀ ws : List (Int × Watch), List.lookup k ws = some v → (k, v) ∈ ws
  | [], h => by simp [List.lookup] at h
  | (a1, a2) :: tl, h => by
    simp only [List.lookup] at h
    by_cases hk : (k == a1) = true
    · rw [hk] at h
      injection h with he
      subst he
      have hka : k = a1 := by simpa using hk
      subst hka
      simp
    · simp only [Bool.not_eq_true] at hk
      rw [hk] at h
      exact List.mem_cons_of_mem _ (lookup_mem k v tl h)

theorem isUnder_self (p : String) : isUnder p p = true := by
  simp [isUnder, List.isPrefixOf_iff_prefix]

theorem prefixRemovals_mem (p : String) (ws : List (Int × Watch)) (k : Int) (wk : Watch)
    (hmem : (k, wk) ∈ ws) (hund : isUnder wk.path p = true) : k ∈ prefixRemovals p ws := by
  simp only [prefixRemovals, List.mem_map, List.mem_filter]
  exact ⟨(k, wk), ⟨hmem, hund⟩, rfl⟩

/-- C2: `add_watch` is idempotent: when the OS primitive hands back an
    identifier already present in the table and the argument equals the
    stored path, or the stored path plus a single trailing slash, the call
    returns that identifier and leaves the watch table, the pending-event
    buffer and the byte counters untouched (only the observation trace of
    the repeated OS registration grows); no descent and no synthesis run. -/
theorem th_C2 (reg : String → Nat → Int) (mask : Nat) :
    ∀ (t : FSTree) (path : String) (im : Bool) (s : WState) (w : Watch),
    reg path (watchMask mask (!endsSlash path)) ≠ -1 →
    List.lookup (reg path (watchMask mask (!endsSlash path))) s.watches = some w →
    (path = w.path ∨ path = w.path ++ "/") →
    add_watch reg mask path t im s =
      .ok (reg path (watchMask mask (!endsSlash path)),
        { s with calls := s.calls ++ [(path, watchMask mask (!endsSlash path))] })
  | .node cs, path, im, s, w, hne, hlk, hdup => by
    rw [add_watch]
    rw [if_neg (by simpa using hne)]
    dsimp only
    rw [hlk]
    dsimp only
    have hd : dupCheck w.path path (!endsSlash path) = true := by
      rcases hdup with hdup | hdup
      · subst hdup
        exact dupCheck_self _ _
      · subst hdup
        rw [endsSlash_concat]
        exact dupCheck_slash w.path
    rw [if_pos hd]

/-- C9: when the OS registration primitive fails (as it does for an empty
    path, a missing path, a non-directory, or an unreadable directory),
    `add_watch` logs one warning, returns the sentinel `-1` as a normal
    result (no exception), and leaves the watch table, the pending-event
    buffer and the byte counters unchanged. -/
theorem th_C9 (reg : String → Nat → Int) (mask : Nat) :
    ∀ (t : FSTree) (path : String) (im : Bool) (s : WState),
    reg path (watchMask mask (!endsSlash path)) = -1 →
    add_watch reg mask path t im s =
      .ok (-1, { s with calls := s.calls ++ [(path, watchMask mask (!endsSlash path))],
                        warns := s.warns + 1 })
  | .node cs, path, im, s, hfail => by
    rw [add_watch]
    rw [hfail]
    rw [if_pos (by decide)]

/-- C7 (amended): every registration call issued to the OS primitive
    during any `add_watch` execution — the top-level one and every
    recursive descent — carries the instance's interest mask unioned with
    the directory-only and self-moved flags, plus the child-created and
    child-moved-in flags exactly when the registered path is recursive
    (does not end with a slash).  No watch-deleted flag is ORed in: the
    kernel delivers the watch-removed notification (`IN_IGNORED`) without
    any subscription. -/
theorem th_C7 (reg : String → Nat → Int) (mask : Nat) (path : String) (t : FSTree)
    (im : Bool) (s : WState) (wd : Int) (s' : WState)
    (h : add_watch reg mask path t im s = .ok (wd, s')) :
    ∀ pm ∈ s'.calls, pm ∈ s.calls ∨
      pm.2 = (mask ||| IN_ONLYDIR ||| IN_MOVE_SELF |||
        (if !endsSlash pm.1 then IN_CREATE ||| IN_MOVED_TO else 0)) := by
  obtain ⟨-, -, -, ⟨l, hc, hcall⟩, -⟩ := aw_meta reg mask path t im s wd s' h
  intro pm hpm
  rw [hc] at hpm
  simp only [List.mem_append, List.mem_cons] at hpm
  rcases hpm with hpm | hpm | hpm
  · exact Or.inl hpm
  · subst hpm
    exact Or.inr rfl
  · exact Or.inr (hcall pm hpm)

/-- C5: a call `add_watch(path, in_move := true)` is silent — it always
    returns normally with the pending-event buffer and its byte fill
    unchanged — and, when `path` is recursive (no trailing slash) and its
    registration succeeds afresh, it invokes the OS registration (with the
    recursive in-move descent) on every immediate subdirectory child of the
    directory, each registered at its joined path. -/
theorem th_C5 (reg : String → Nat → Int) (mask : Nat) :
    ∀ (t : FSTree) (path : String) (s : WState),
    (∃ wd s', add_watch reg mask path t true s = .ok (wd, s') ∧
      s'.buffer = s.buffer ∧ s'.bytes_in_buffer = s.bytes_in_buffer) ∧
    (∀ wd s', add_watch reg mask path t true s = .ok (wd, s') →
      endsSlash path = false →
      reg path (watchMask mask (!endsSlash path)) ≠ -1 →
      List.lookup (reg path (watchMask mask (!endsSlash path))) s.watches = none →
      ∀ name kind sub, (name, kind, sub) ∈ (treeChildren t).toList → kind = EntKind.dir →
      (pathJoin path name,
        watchMask mask (!endsSlash (pathJoin path name))) ∈ s'.calls)
  | .node cs, path, s => by
    constructor
    · obtain ⟨wd, s', he, hb, hbi, -⟩ := aw_silent reg mask path (.node cs) s
      exact ⟨wd, s', he, hb, hbi⟩
    · intro wd s' h hrec hne hfresh name kind sub hmem hdir
      rw [add_watch] at h
      rw [if_neg (by simpa using hne)] at h
      dsimp only at h
      rw [hfresh] at h
      dsimp only at h
      rw [if_pos rfl] at h
      rw [if_pos (show (!endsSlash path) = true by rw [hrec]; rfl)] at h
      split at h
      · cases h
      · rename_i s3 hsub
        injection h with h1
        injection h1 with e1 e2
        subst e2
        exact as_child_calls reg mask path cs _ _ hsub name kind sub hmem hdir

/-- C1 (amended): for a fresh successful registration with
    `in_move := false`, the pending-event buffer is extended by exactly one
    synthesized creation record per immediate child that is a regular file,
    directory or symlink (device/fifo/socket children excluded) and that
    satisfies the code's synthesis guard — the instance mask contains the
    child-created flag, or the child is a directory and the path is
    recursive; each record carries the new watch identifier, the
    is-directory flag exactly for directory children, and cookie zero. -/
theorem th_C1 (reg : String → Nat → Int) (mask : Nat) :
    ∀ (t : FSTree) (path : String) (s : WState) (wd : Int) (s' : WState),
    add_watch reg mask path t false s = .ok (wd, s') →
    reg path (watchMask mask (!endsSlash path)) ≠ -1 →
    List.lookup (reg path (watchMask mask (!endsSlash path))) s.watches = none →
    wd = reg path (watchMask mask (!endsSlash path)) ∧
    s'.buffer = s.buffer ++ expectedSynth wd mask (!endsSlash path) (treeChildren t)
  | .node cs, path, s, wd, s', h, hne, hfresh => by
    rw [add_watch] at h
    rw [if_neg (by simpa using hne)] at h
    dsimp only at h
    rw [hfresh] at h
    dsimp only at h
    rw [if_neg (by simp)] at h
    split at h
    · cases h
    · rename_i s3 hsyn
      injection h with h1
      injection h1 with e1 e2
      subst e1; subst e2
      obtain ⟨hb, -⟩ := synthesize_ok _ _ _ _ _ _ hsyn
      exact ⟨rfl, by simpa using hb⟩

/-- C8: when the synthesized creation records of the immediate children
    would need more bytes than the fixed 4096-byte buffer holds, a fresh
    successful `add_watch(path, in_move := false)` raises the fatal
    Invalid-argument error (`EINVAL`) instead of truncating or dropping
    records. -/
theorem th_C8 (reg : String → Nat → Int) (mask : Nat) :
    ∀ (t : FSTree) (path : String) (s : WState),
    reg path (watchMask mask (!endsSlash path)) ≠ -1 →
    List.lookup (reg path (watchMask mask (!endsSlash path))) s.watches = none →
    bufferCap < synthBytes mask (!endsSlash path) (treeChildren t) →
    add_watch reg mask path t false s = .error (.errno 22)
  | .node cs, path, s, hne, hfresh, hover => by
    rw [add_watch]
    rw [if_neg (by simpa using hne)]
    dsimp only
    rw [hfresh]
    dsimp only
    rw [if_neg (by simp)]
    have hover2 : bufferCap < synthBytes mask (!endsSlash path) cs := hover
    rw [synthesize_overflow _ _ _ _ _ (by dsimp only; omega)
      (by have h0 : 0 < bufferCap := by decide
          omega)]

/-- C1, counterexample: an instance whose interest mask lacks the
    child-created flag (here `IN_CLOSE_WRITE`) successfully registers a
    fresh recursive watch on a directory holding one regular-file child,
    yet the call synthesizes no creation record at all — the claim promises
    one record for every regular-file child of every successful
    `in_move = false` call. -/
theorem th_C1_cex :
    (add_watch rgW 8 "/a" trC1 false WState.init).map (fun r => (r.1, r.2.buffer)) =
      .ok (7, []) ∧
    (treeChildren trC1).toList.map (fun c => (c.1, c.2.1)) = [("f", EntKind.regular)] := by
  constructor
  · rfl
  · rfl

/-- C3: processing a self-move record for a watch whose `in_move` flag is
    false unregisters (calls the OS unregister primitive on) that watch and
    every table entry whose path has the watch's stored path as a string
    prefix when the stored path is recursive, and only the watch itself
    when the stored path ends in a slash; in both cases the self-move
    handling erases no table entry (erasure happens only on `IN_IGNORED`). -/
theorem th_C3 (reg : String → Nat → Int) (fsAt : String → FSTree) (mask : Nat)
    (s : WState) (e : InEvent) (rest : List InEvent) (w : Watch)
    (hbuf : s.buffer = e :: rest)
    (hsane : s.bytes_handled + eventBytes e ≤ s.bytes_in_buffer)
    (hlk : List.lookup e.wd s.watches = some w)
    (hnosub : e.mask &&& (IN_CREATE ||| IN_MOVED_TO) = 0)
    (hms : e.mask &&& IN_MOVE_SELF ≠ 0)
    (hnign : e.mask &&& IN_IGNORED = 0)
    (him : w.in_move = false) :
    ∃ s', drainStep reg fsAt mask s =
        .ok ((if e.mask &&& mask != 0 then some e else none), s') ∧
      s'.watches = s.watches ∧
      (endsSlash w.path = false →
        s'.rms = s.rms ++ prefixRemovals w.path s.watches ∧
        e.wd ∈ prefixRemovals w.path s.watches ∧
        (∀ k wk, (k, wk) ∈ s.watches → isUnder wk.path w.path = true →
          k ∈ prefixRemovals w.path s.watches)) ∧
      (endsSlash w.path = true → s'.rms = s.rms ++ [e.wd]) := by
  obtain ⟨s', he, hw, hr, -⟩ :=
    drainStep_moveself reg fsAt mask s e rest w hbuf hsane hlk hnosub hms hnign
  refine ⟨s', he, ?_, ?_, ?_⟩
  · rw [hw, if_neg (by simp [him])]
  · intro hsl
    refine ⟨?_, ?_, ?_⟩
    · rw [hr, if_neg (by simp [him]), if_neg (by simp [hsl])]
    · exact prefixRemovals_mem _ _ _ w (lookup_mem _ _ _ hlk) (isUnder_self _)
    · intro k wk hmem hund
      exact prefixRemovals_mem _ _ _ _ hmem hund
  · intro hsl
    rw [hr, if_neg (by simp [him]), if_pos hsl]

/-- C4: the `in_move` suppression is one-shot.  (1) A self-move record for
    a watch with the flag set clears the flag and unregisters nothing.
    (2) A self-move record for a watch with the flag clear triggers
    unregistration.  (3) A drain pass newly raises a flag only while
    processing a moved-in directory record (the moved-in reconciliation).
    (4) `add_watch` itself never raises a flag, so the flag is true only in
    the interval opened by a moved-in reconciliation and closed by the next
    self-move record. -/
theorem th_C4 :
    (∀ (reg : String → Nat → Int) (fsAt : String → FSTree) (mask : Nat)
      (s : WState) (e : InEvent) (rest : List InEvent) (w : Watch),
      s.buffer = e :: rest →
      s.bytes_handled + eventBytes e ≤ s.bytes_in_buffer →
      List.lookup e.wd s.watches = some w →
      e.mask &&& (IN_CREATE ||| IN_MOVED_TO) = 0 →
      e.mask &&& IN_MOVE_SELF ≠ 0 →
      e.mask &&& IN_IGNORED = 0 →
      w.in_move = true →
      ∃ s', drainStep reg fsAt mask s =
          .ok ((if e.mask &&& mask != 0 then some e else none), s') ∧
        s'.watches = setInMove e.wd false s.watches ∧ s'.rms = s.rms) ∧
    (∀ (reg : String → Nat → Int) (fsAt : String → FSTree) (mask : Nat)
      (s : WState) (e : InEvent) (rest : List InEvent) (w : Watch),
      s.buffer = e :: rest →
      s.bytes_handled + eventBytes e ≤ s.bytes_in_buffer →
      List.lookup e.wd s.watches = some w →
      e.mask &&& (IN_CREATE ||| IN_MOVED_TO) = 0 →
      e.mask &&& IN_MOVE_SELF ≠ 0 →
      e.mask &&& IN_IGNORED = 0 →
      w.in_move = false →
      ∃ s' l, drainStep reg fsAt mask s =
          .ok ((if e.mask &&& mask != 0 then some e else none), s') ∧
        s'.rms = s.rms ++ l ∧ e.wd ∈ l) ∧
    (∀ (reg : String → Nat → Int) (fsAt : String → FSTree) (mask : Nat)
      (s : WState) (r : Option InEvent) (s' : WState),
      drainStep reg fsAt mask s = .ok (r, s') →
      ∀ (k : Int) (w' : Watch), List.lookup k s'.watches = some w' → w'.in_move = true →
        (∃ w0, List.lookup k s.watches = some w0 ∧ w0.in_move = true) ∨
        (∃ e rest, s.buffer = e :: rest ∧
          e.mask &&& IN_MOVED_TO ≠ 0 ∧ e.mask &&& IN_ISDIR ≠ 0)) ∧
    (∀ (reg : String → Nat → Int) (mask : Nat) (path : String) (t : FSTree)
      (im : Bool) (s : WState) (wd : Int) (s' : WState),
      add_watch reg mask path t im s = .ok (wd, s') →
      ∀ (k : Int) (w' : Watch), List.lookup k s'.watches = some w' → w'.in_move = true →
        ∃ w0, List.lookup k s.watches = some w0 ∧ w0.in_move = true) := by
  refine ⟨?_, ?_, ?_, ?_⟩
  · intro reg fsAt mask s e rest w hbuf hsane hlk hnosub hms hnign him
    obtain ⟨s', he, hw, hr, -⟩ :=
      drainStep_moveself reg fsAt mask s e rest w hbuf hsane hlk hnosub hms hnign
    exact ⟨s', he, by rw [hw, if_pos him], by rw [hr, if_pos him]⟩
  · intro reg fsAt mask s e rest w hbuf hsane hlk hnosub hms hnign him
    obtain ⟨s', he, hw, hr, -⟩ :=
      drainStep_moveself reg fsAt mask s e rest w hbuf hsane hlk hnosub hms hnign
    by_cases hsl : endsSlash w.path = true
    · refine ⟨s', [e.wd], he, ?_, by simp⟩
      rw [hr, if_neg (by simp [him]), if_pos hsl]
    · refine ⟨s', prefixRemovals w.path s.watches, he, ?_, ?_⟩
      · rw [hr, if_neg (by simp [him]), if_neg hsl]
      · exact prefixRemovals_mem _ _ _ w (lookup_mem _ _ _ hlk) (isUnder_self _)
  · intro reg fsAt mask s r s' h
    exact (drainStep_meta reg fsAt mask s r s' h).2
  · intro reg mask path t im s wd s' h
    exact (aw_meta reg mask path t im s wd s' h).2.2.2.2

/-- C6: timeout accounting of `read`.  (1) A `nullptr` from the `poll`
    branch hands `poll` exactly the original budget minus the elapsed time
    of the completed iterations (so blocking never exceeds the caller's
    budget, and the cumulative wait on a poll timeout equals the budget).
    (2) A `nullptr` from the exhausted-budget branch happens only with a
    non-negative budget that the completed iterations used up.
    (3) A negative budget never reaches the exhausted-budget return, and —
    as `poll(-1)` never times out — never returns `nullptr` at all.
    (4) A zero budget with an empty buffer and no readiness returns
    `nullptr` immediately, consuming nothing. -/
theorem th_C6 (reg : String → Nat → Int) (fsAt : String → FSTree) (mask : Nat)
    (rd : Nat) (df : Nat) :
    (∀ (rounds : List Round) (t : Int) (s : WState) (b : Int) (s2 : WState)
        (left : List Round),
      readLoop reg fsAt mask rd df rounds t s = .ok (.pollTimedOut b s2 left) →
      ∃ pre r1, rounds = pre ++ r1 :: left ∧ r1.ready = false ∧
        (t < 0 → b = t) ∧ (0 ≤ t → b = t - elapsedSum pre ∧ 0 ≤ b)) ∧
    (∀ (rounds : List Round) (t : Int) (s : WState) (s2 : WState) (left : List Round),
      readLoop reg fsAt mask rd df rounds t s = .ok (.budgetOut s2 left) →
      0 ≤ t ∧ ∃ pre r1, rounds = pre ++ r1 :: left ∧
        0 ≤ t - elapsedSum pre ∧ t ≤ elapsedSum pre + r1.elapsed) ∧
    (∀ (rounds : List Round) (t : Int) (s : WState), t < 0 →
      (∀ s2 left, readLoop reg fsAt mask rd df rounds t s ≠ .ok (.budgetOut s2 left)) ∧
      ((∀ r ∈ rounds, r.ready = true) →
        ∀ b s2 left,
          readLoop reg fsAt mask rd df rounds t s ≠ .ok (.pollTimedOut b s2 left))) ∧
    (∀ (r : Round) (rest : List Round) (s : WState),
      s.buffer = [] → r.ready = false →
      readLoop reg fsAt mask rd df (r :: rest) 0 s =
        .ok (.pollTimedOut 0 { s with ios := s.ios ++ [IOAct.poll 0] } rest)) := by
  refine ⟨?_, ?_, ?_, ?_⟩
  · intro rounds t s b s2 left h
    exact readLoop_spec reg fsAt mask rd df rounds t s _ h
  · intro rounds t s s2 left h
    obtain ⟨ht, pre, r1, hsplit, h1, h2⟩ := readLoop_spec reg fsAt mask rd df rounds t s _ h
    exact ⟨ht, pre, r1, hsplit, h1, by omega⟩
  · intro rounds t s ht
    constructor
    · intro s2 left h
      obtain ⟨ht2, -⟩ := readLoop_spec reg fsAt mask rd df rounds t s _ h
      omega
    · intro hall b s2 left h
      obtain ⟨pre, r1, hsplit, hready, -, -⟩ := readLoop_spec reg fsAt mask rd df rounds t s _ h
      have : r1 ∈ rounds := by
        rw [hsplit]
        simp
      rw [hall r1 this] at hready
      cases hready
  · intro r rest s hbe hready
    rw [readLoop]
    rw [if_pos (by rw [hbe]; rfl)]
    dsimp only
    rw [if_neg (by simp [hready])]

/-- C10: when the pending-event buffer is non-empty on entry, `read`
    performs no readiness wait and no coalescing sleep — the suspension
    trace is unchanged — and immediately drains the buffered records;
    whenever the drain yields a record (necessarily one intersecting the
    interest mask), that record is returned for any timeout, including
    zero. -/
theorem th_C10 (reg : String → Nat → Int) (fsAt : String → FSTree) (mask : Nat)
    (rd : Nat) (df : Nat) (s : WState) (e : InEvent) (s' : WState)
    (r : Round) (rest : List Round) (t : Int)
    (hne : s.buffer ≠ [])
    (hdr : drain reg fsAt mask df s = .ok (some e, s')) :
    readLoop reg fsAt mask rd df (r :: rest) t s = .ok (.ev e s' rest) ∧
    s'.ios = s.ios ∧ e.mask &&& mask ≠ 0 := by
  refine ⟨?_, drain_ios reg fsAt mask df s (some e) s' hdr,
    drain_some reg fsAt mask df s e s' hdr⟩
  rw [readLoop]
  rw [if_neg (by simpa [List.isEmpty_iff] using hne)]
  rw [hdr]

theorem th_C2_witness :
    add_watch rgW 0xfff "/a" (.node .nil) false stC2 =
      .ok (rgW "/a" (watchMask 0xfff (!endsSlash "/a")),
        { stC2 with calls := stC2.calls ++ [("/a", watchMask 0xfff (!endsSlash "/a"))] }) :=
  th_C2 rgW 0xfff (.node .nil) "/a" false stC2 { path := "/a", in_move := false }
    (by decide) (by rfl) (Or.inl rfl)

theorem th_C9_witness :
    add_watch rgF 0xfff "" (.node .nil) true WState.init =
      .ok (-1, { WState.init with
        calls := WState.init.calls ++ [("", watchMask 0xfff (!endsSlash ""))],
        warns := WState.init.warns + 1 }) :=
  th_C9 rgF 0xfff (.node .nil) "" true WState.init (by rfl)

theorem th_C7_witness :
    ("/a", watchMask 0 true) ∈ WState.init.calls ∨
      ("/a", watchMask 0 true).2 = ((0 : Nat) ||| IN_ONLYDIR ||| IN_MOVE_SELF |||
        (if !endsSlash ("/a", watchMask 0 true).1 then IN_CREATE ||| IN_MOVED_TO else 0)) :=
  th_C7 rgW 0 "/a" trW false WState.init 7 stC7 (by rfl) ("/a", watchMask 0 true)
    (List.Mem.head _)

theorem th_C1_witness :
    (7 : Int) = rgW "/a" (watchMask 0xfff (!endsSlash "/a")) ∧
    stC1.buffer = WState.init.buffer ++
      expectedSynth 7 0xfff (!endsSlash "/a") (treeChildren trW) :=
  th_C1 rgW 0xfff trW "/a" WState.init 7 stC1 (by rfl) (by decide) rfl

theorem th_C5_witness :
    (∃ wd s', add_watch rgW 0xfff "/a" trW true WState.init = .ok (wd, s') ∧
      s'.buffer = WState.init.buffer ∧
      s'.bytes_in_buffer = WState.init.bytes_in_buffer) ∧
    (pathJoin "/a" "d", watchMask 0xfff (!endsSlash (pathJoin "/a" "d"))) ∈ stC5.calls :=
  ⟨(th_C5 rgW 0xfff trW "/a" WState.init).1,
    (th_C5 rgW 0xfff trW "/a" WState.init).2 7 stC5 (by rfl) (by decide) (by decide)
      (by rfl) "d" EntKind.dir (.node .nil)
      (List.Mem.tail _ (List.Mem.head _)) rfl⟩

set_option maxRecDepth 40000 in
theorem th_C8_witness :
    add_watch rgW 0xfff "/a" trC8 false WState.init = .error (.errno 22) :=
  th_C8 rgW 0xfff trC8 "/a" WState.init (by decide) (by rfl) (by decide)

theorem th_C3_witness :
    ∃ s', drainStep rgW fsW 0xfff stC3 = .ok (some evMS, s') ∧
      s'.watches = stC3.watches ∧
      (endsSlash "/a" = false →
        s'.rms = stC3.rms ++ prefixRemovals "/a" stC3.watches ∧
        (3 : Int) ∈ prefixRemovals "/a" stC3.watches ∧
        (∀ k wk, (k, wk) ∈ stC3.watches → isUnder wk.path "/a" = true →
          k ∈ prefixRemovals "/a" stC3.watches)) ∧
      (endsSlash "/a" = true → s'.rms = stC3.rms ++ [(3 : Int)]) :=
  th_C3 rgW fsW 0xfff stC3 evMS [] { path := "/a", in_move := false }
    rfl (by decide) rfl (by decide) (by decide) (by decide) rfl

theorem th_C4_witness :
    (∃ s', drainStep rgW fsW 0xfff stC4a = .ok (some evMS, s') ∧
      s'.watches = setInMove 3 false stC4a.watches ∧ s'.rms = stC4a.rms) ∧
    (∃ s' l, drainStep rgW fsW 0xfff stC3 = .ok (some evMS, s') ∧
      s'.rms = stC3.rms ++ l ∧ (3 : Int) ∈ l) ∧
    ((∃ w0, List.lookup (3 : Int) stC4c.watches = some w0 ∧ w0.in_move = true) ∨
      (∃ e rest, stC4c.buffer = e :: rest ∧
        e.mask &&& IN_MOVED_TO ≠ 0 ∧ e.mask &&& IN_ISDIR ≠ 0)) ∧
    (∃ w0, List.lookup (7 : Int) stC4d.watches = some w0 ∧ w0.in_move = true) :=
  ⟨th_C4.1 rgW fsW 0xfff stC4a evMS [] { path := "/a", in_move := true }
      rfl (by decide) rfl (by decide) (by decide) (by decide) rfl,
   th_C4.2.1 rgW fsW 0xfff stC3 evMS [] { path := "/a", in_move := false }
      rfl (by decide) rfl (by decide) (by decide) (by decide) rfl,
   th_C4.2.2.1 rgW fsW 0xfff stC4c (some evAcc) stC4c2 (by rfl) 3
      { path := "/x", in_move := true } rfl rfl,
   th_C4.2.2.2 rgW 0xfff "/b" (.node .nil) true stC4d 7 stC4d2 (by rfl) 7
      { path := "/b", in_move := true } rfl rfl⟩

theorem th_C6_witness :
    (∃ pre r1, [rdA] = pre ++ r1 :: ([] : List Round) ∧ r1.ready = false ∧
      ((10 : Int) < 0 → (10 : Int) = 10) ∧
      ((0 : Int) ≤ 10 → (10 : Int) = 10 - elapsedSum pre ∧ (0 : Int) ≤ 10)) ∧
    ((0 : Int) ≤ 5 ∧ ∃ pre r1, [rdB] = pre ++ r1 :: ([] : List Round) ∧
      (0 : Int) ≤ 5 - elapsedSum pre ∧ (5 : Int) ≤ elapsedSum pre + r1.elapsed) ∧
    ((∀ s2 left, readLoop rgW fsW 2 0 5 [] (-1) WState.init ≠ .ok (.budgetOut s2 left)) ∧
      ((∀ r ∈ ([] : List Round), r.ready = true) →
        ∀ b s2 left, readLoop rgW fsW 2 0 5 [] (-1) WState.init ≠
          .ok (.pollTimedOut b s2 left))) ∧
    (readLoop rgW fsW 2 0 5 [rdA] 0 WState.init =
      .ok (.pollTimedOut 0 { WState.init with ios := WState.init.ios ++ [IOAct.poll 0] } [])) :=
  ⟨(th_C6 rgW fsW 2 0 5).1 [rdA] 10 WState.init 10
      { WState.init with ios := WState.init.ios ++ [IOAct.poll 10] } [] (by rfl),
   (th_C6 rgW fsW 2 0 5).2.1 [rdB] 5 stC6b stC6b2 [] (by rfl),
   (th_C6 rgW fsW 2 0 5).2.2.1 [] (-1) WState.init (by decide),
   (th_C6 rgW fsW 2 0 5).2.2.2 rdA [] WState.init rfl rfl⟩

theorem th_C10_witness :
    readLoop rgW fsW 0xfff 0 2 [rdT] 0 stC10 = .ok (.ev evAcc stC10b []) ∧
    stC10b.ios = stC10.ios ∧ evAcc.mask &&& 0xfff ≠ 0 :=
  th_C10 rgW fsW 0xfff 0 2 stC10 evAcc stC10b rdT [] 0 (by simp [stC10]) (by rfl)


/-- C7, counterexample: the claim says the registration mask always
    includes a watch-deleted flag.  A concrete recursive registration with
    interest mask 0 passes exactly `IN_ONLYDIR | IN_MOVE_SELF |
    IN_CREATE | IN_MOVED_TO` (= 0x1000980) to the OS primitive — a value
    that differs from the claimed union whether the watch-deleted flag is
    read as `IN_DELETE_SELF` or as `IN_IGNORED`; lines 166-167 of the
    source OR in no such flag. -/
theorem th_C7_cex :
    (add_watch rgW 0 "/a" (.node .nil) true WState.init).map (fun r => r.2.calls) =
      .ok [("/a", 0x1000980)] ∧
    (0x1000980 : Nat) ≠
      0 ||| IN_ONLYDIR ||| IN_MOVE_SELF ||| IN_DELETE_SELF ||| (IN_CREATE ||| IN_MOVED_TO) ∧
    (0x1000980 : Nat) ≠
      0 ||| IN_ONLYDIR ||| IN_MOVE_SELF ||| IN_IGNORED ||| (IN_CREATE ||| IN_MOVED_TO) := by
  refine ⟨rfl, by decide, by decide⟩
